import Mathlib

/-!
Verification of the trajectory preprocessing pipeline
(`src/data_preprocessing.py`, `src/merge_processed.py`).

The pandas `DataFrame` manipulated by the source is modelled as a list of
rows; a cell of a numeric column is `Option ℚ` (`none` = NaN), and the
floating-point values flowing through the arithmetic helpers are modelled
by `FVal`, which distinguishes NaN, the two infinities and finite values
(finite values are exact rationals: rounding is not modelled).
-/

/- The rational-number operations are `@[irreducible]` in the library; the
concrete runs of the pipeline in the witnesses and counterexamples below are
evaluated by `decide`, which needs them to unfold. -/
set_option allowUnsafeReducibility true in
attribute [semireducible] Rat.mul Rat.inv Rat.add Rat.sub Rat.ofScientific

namespace Traj

/-- A floating-point value as seen by the arithmetic helpers of
`data_preprocessing.py`: NaN, +inf, -inf or a finite number. -/
inductive FVal
| nan : FVal
| pinf : FVal
| ninf : FVal
| num : ℚ → FVal
deriving DecidableEq, Repr

/-- IEEE-style subtraction on `FVal` (used by `Series.diff`): NaN is
absorbing, inf - inf = NaN, inf - finite = inf. -/
def fsub : FVal → FVal → FVal
| FVal.nan, _ => FVal.nan
| _, FVal.nan => FVal.nan
| FVal.pinf, FVal.pinf => FVal.nan
| FVal.pinf, FVal.ninf => FVal.pinf
| FVal.pinf, FVal.num _ => FVal.pinf
| FVal.ninf, FVal.ninf => FVal.nan
| FVal.ninf, FVal.pinf => FVal.ninf
| FVal.ninf, FVal.num _ => FVal.ninf
| FVal.num _, FVal.pinf => FVal.ninf
| FVal.num _, FVal.ninf => FVal.pinf
| FVal.num a, FVal.num b => FVal.num (a - b)

/-- IEEE-style division on `FVal`: NaN absorbing, x/0 = ±inf (NaN for 0/0),
finite/inf = 0, inf/inf = NaN. -/
def fdiv : FVal → FVal → FVal
| FVal.nan, _ => FVal.nan
| _, FVal.nan => FVal.nan
| FVal.num a, FVal.num b =>
    if b = 0 then (if a = 0 then FVal.nan else if 0 < a then FVal.pinf else FVal.ninf)
    else FVal.num (a / b)
| FVal.num _, FVal.pinf => FVal.num 0
| FVal.num _, FVal.ninf => FVal.num 0
| FVal.pinf, FVal.num b => if b < 0 then FVal.ninf else FVal.pinf
| FVal.ninf, FVal.num b => if b < 0 then FVal.pinf else FVal.ninf
| FVal.pinf, FVal.pinf => FVal.nan
| FVal.pinf, FVal.ninf => FVal.nan
| FVal.ninf, FVal.pinf => FVal.nan
| FVal.ninf, FVal.ninf => FVal.nan

/-- Multiplication by a positive finite constant (the source multiplies a
series by the literal `DEG_TO_M = 111_000`, which is positive, so the sign
of infinities is preserved). -/
def fscale (c : ℚ) : FVal → FVal
| FVal.nan => FVal.nan
| FVal.pinf => FVal.pinf
| FVal.ninf => FVal.ninf
| FVal.num a => FVal.num (c * a)

/-- `Series.diff`: first element NaN, element i is s[i] - s[i-1]. -/
def sdiff : List FVal → List FVal
| [] => []
| x :: xs => FVal.nan :: List.zipWith fsub xs (x :: xs)

/-- `safe_diff` (`data_preprocessing.py` line 14): `series.diff().fillna(0)`.
(The `series is None` branch of the source returns the scalar 0; inside the
pipeline the argument is always an actual column, which is what is modelled
here.) -/
def safe_diff (xs : List FVal) : List FVal :=
  (sdiff xs).map (fun v => if v = FVal.nan then FVal.num 0 else v)

/-- The post-processing of a quotient performed by `safe_div`:
`.replace([inf, -inf], 0).fillna(0)` maps NaN and both infinities to 0. -/
def clampFVal : FVal → FVal
| FVal.nan => FVal.num 0
| FVal.pinf => FVal.num 0
| FVal.ninf => FVal.num 0
| FVal.num q => FVal.num q

/-- `safe_div` (`data_preprocessing.py` line 22):
`denominator.replace(0, nan)`, then elementwise division, then
`.replace([inf, -inf], 0).fillna(0)`. -/
def safe_div (numerator denominator : List FVal) : List FVal :=
  let den := denominator.map (fun v => if v = FVal.num 0 then FVal.nan else v)
  (List.zipWith fdiv numerator den).map clampFVal

/-! ### Interpolation (`Series.interpolate(method="linear")`, `bfill`, `ffill`)

`interpolate(method="linear")` treats values as equally spaced by position:
a missing entry with a valid entry on both sides gets the linear
interpolation in position; a missing entry after the last valid entry gets
that last valid value (np.interp clamps); a missing entry before the first
valid entry is left missing (default `limit_direction="forward"`). The
subsequent `fillna(method="bfill")` fills those leading gaps from the first
valid value, and `fillna(method="ffill")` is a no-op except on a column with
no valid entry at all. -/

/-- Index and value of the last valid entry strictly before position `k`
(scans downward from `k - 1`). -/
def prevValidIdx (xs : List (Option ℚ)) : ℕ → Option (ℕ × ℚ)
| 0 => none
| k + 1 =>
  match xs.getD k none with
  | some v => some (k, v)
  | none => prevValidIdx xs k

/-- First valid entry at position `j` or later, inspecting `fuel` positions. -/
def findValidFrom (xs : List (Option ℚ)) : ℕ → ℕ → Option (ℕ × ℚ)
| _, 0 => none
| j, fuel + 1 =>
  match xs.getD j none with
  | some v => some (j, v)
  | none => findValidFrom xs (j + 1) fuel

/-- Index and value of the first valid entry strictly after position `k`. -/
def nextValidIdx (xs : List (Option ℚ)) (k : ℕ) : Option (ℕ × ℚ) :=
  findValidFrom xs (k + 1) (xs.length - (k + 1))

/-- Value of `interpolate(method="linear")` at position `k`. -/
def interpAt (xs : List (Option ℚ)) (k : ℕ) : Option ℚ :=
  match xs.getD k none with
  | some v => some v
  | none =>
    match prevValidIdx xs k with
    | none => none
    | some (i, vi) =>
      match nextValidIdx xs k with
      | none => some vi
      | some (j, vj) => some (vi + (vj - vi) * ((k : ℚ) - (i : ℚ)) / ((j : ℚ) - (i : ℚ)))

/-- `Series.interpolate(method="linear")` with default forward limit. -/
def interpolateLinear (xs : List (Option ℚ)) : List (Option ℚ) :=
  (List.range xs.length).map (interpAt xs)

/-- First valid value at position `k` or after (used by backward fill). -/
def nextValidAt (xs : List (Option ℚ)) (k : ℕ) : Option ℚ :=
  ((xs.drop k).filterMap id).head?

/-- Last valid value at position `k` or before (used by forward fill). -/
def prevValidAt (xs : List (Option ℚ)) (k : ℕ) : Option ℚ :=
  ((xs.take (k + 1)).filterMap id).getLast?

/-- `fillna(method="bfill")`. -/
def bfill (xs : List (Option ℚ)) : List (Option ℚ) :=
  (List.range xs.length).map (fun k =>
    match xs.getD k none with
    | some v => some v
    | none => nextValidAt xs k)

/-- `fillna(method="ffill")`. -/
def ffill (xs : List (Option ℚ)) : List (Option ℚ) :=
  (List.range xs.length).map (fun k =>
    match xs.getD k none with
    | some v => some v
    | none => prevValidAt xs k)

/-- The full gap-filling applied to each numeric column
(`data_preprocessing.py` lines 76-83):
`interpolate(method="linear").fillna(method="bfill").fillna(method="ffill")`. -/
def fillColumn (xs : List (Option ℚ)) : List (Option ℚ) :=
  ffill (bfill (interpolateLinear xs))

/-! ### Data model -/

/-- A raw cell of the `time` column as read from the CSV: missing (NaN,
dropped by `dropna`), present but unparseable as epoch seconds (a string;
survives `dropna` on the essential columns, turned into NaT and dropped by
the `to_datetime(..., errors="coerce")` step), or a parsed value. -/
inductive Cell
| missing : Cell
| invalid : Cell
| val : ℚ → Cell
deriving DecidableEq, Repr

/-- One row of a raw trajectory CSV. A numeric cell is `none` when it is
NaN. Fields of columns absent from the file are normalised to `none` by
`normRow` (an absent column simply has no values). -/
structure RawRow where
  time : Cell
  latitude : Option ℚ
  longitude : Option ℚ
  baro_altitude : Option ℚ
  velocity : Option ℚ
  heading : Option ℚ
  icao24 : Option String
deriving DecidableEq, Repr

/-- A raw trajectory file: its size in bytes (for the `getsize < 10` check),
which optional columns its header declares, and its rows. -/
structure RawFrame where
  byteSize : ℕ
  hasTime : Bool
  hasLatitude : Bool
  hasLongitude : Bool
  hasBaroAltitude : Bool
  hasVelocity : Bool
  hasHeading : Bool
  hasIcao24 : Bool
  rows : List RawRow
deriving DecidableEq, Repr

/-- A row after the `time` column has been parsed (rows with missing or
unparseable `time` have been dropped); the other numeric columns may still
contain NaN (`dropna` is applied only to the essential columns, and
`velocity`/`heading` are not essential). -/
structure CleanRow where
  time : ℚ
  latitude : Option ℚ
  longitude : Option ℚ
  baro_altitude : Option ℚ
  velocity : Option ℚ
  heading : Option ℚ
  icao24 : Option String
deriving DecidableEq, Repr

/-- The enriched frame returned by `preprocess_file`: the cleaned rows (with
the constant `icao24` column already written back into them, source line
121) together with each derived column. -/
structure EnrichedFrame where
  rows : List CleanRow
  hasHeading : Bool
  delta_time : List ℚ
  delta_lat : List FVal
  delta_lon : List FVal
  delta_altitude : List FVal
  delta_velocity : List FVal
  vx : List FVal
  vy : List FVal
  v_vertical : List FVal
  ax : List FVal
  ay : List FVal
  a_vertical : List FVal
  delta_heading : List FVal
  icao24 : Option String
deriving DecidableEq, Repr

instance : Inhabited EnrichedFrame :=
  ⟨⟨[], false, [], [], [], [], [], [], [], [], [], [], [], [], none⟩⟩

/-- The only exception the modelled pipeline can raise:
`df["icao24"].iloc[0]` on a zero-row frame (source line 121). -/
inductive PyErr
| indexError : PyErr
deriving DecidableEq, Repr

/-! ### The cleaning pipeline (`preprocess_file`) -/

/-- Fields of columns that are absent from the file hold no values. -/
def normRow (hasVelocity hasHeading hasIcao24 : Bool) (r : RawRow) : RawRow :=
  { r with velocity := if hasVelocity then r.velocity else none,
           heading := if hasHeading then r.heading else none,
           icao24 := if hasIcao24 then r.icao24 else none }

/-- The `dropna(subset=essential_cols)` predicate (source line 60): the row
survives iff `time` is not NaN (an unparseable string is not NaN!) and
`latitude`, `longitude`, `baro_altitude` are not NaN. -/
def essentialOk (r : RawRow) : Bool :=
  (match r.time with | Cell.missing => false | _ => true)
    && r.latitude.isSome && r.longitude.isSome && r.baro_altitude.isSome

/-- The `to_datetime(errors="coerce")` + `dropna(subset=["time"])` step
(source lines 66-67): keeps exactly the rows whose `time` parses. -/
def toCleanRow (r : RawRow) : Option CleanRow :=
  match r.time with
  | Cell.val t => some ⟨t, r.latitude, r.longitude, r.baro_altitude,
                        r.velocity, r.heading, r.icao24⟩
  | _ => none

/-- Row order used by `sort_values("time")`. -/
def rowLE (a b : CleanRow) : Prop := a.time ≤ b.time

instance : DecidableRel rowLE := fun a b => inferInstanceAs (Decidable (a.time ≤ b.time))

instance : IsTotal CleanRow rowLE := ⟨fun a b => le_total a.time b.time⟩

instance : IsTrans CleanRow rowLE := ⟨fun _ _ _ h h' => le_trans h h'⟩

/-- `sort_values("time")` (modelled by a stable sort). -/
def sortByTime (rows : List CleanRow) : List CleanRow :=
  List.insertionSort rowLE rows

/-- Loop of `drop_duplicates()`: keep a row iff it has not been seen yet. -/
def dropDupAux : List CleanRow → List CleanRow → List CleanRow
| [], _ => []
| x :: xs, seen =>
  if x ∈ seen then dropDupAux xs seen else x :: dropDupAux xs (x :: seen)

/-- `drop_duplicates()`: remove exact duplicate rows, keeping the first
occurrence of each. -/
def dropDuplicates (rows : List CleanRow) : List CleanRow :=
  dropDupAux rows []

/-- STEP 3 of the source (lines 74-86): apply
`interpolate(method="linear").fillna(method="bfill").fillna(method="ffill")`
to each of the four numeric columns, leaving `time`, `heading` and `icao24`
untouched; each output row is rebuilt from the filled columns. -/
def step_interpolate (rows : List CleanRow) : List CleanRow :=
  (List.range rows.length).map (fun k =>
    { time := (rows.map (fun r => r.time)).getD k 0,
      latitude := (fillColumn (rows.map (fun r => r.latitude))).getD k none,
      longitude := (fillColumn (rows.map (fun r => r.longitude))).getD k none,
      baro_altitude := (fillColumn (rows.map (fun r => r.baro_altitude))).getD k none,
      velocity := (fillColumn (rows.map (fun r => r.velocity))).getD k none,
      heading := (rows.map (fun r => r.heading)).getD k none,
      icao24 := (rows.map (fun r => r.icao24)).getD k none })

/-- The `delta_time` column (source lines 93-94):
`time.diff().dt.total_seconds().fillna(1)` followed by `replace(0, 1)`. -/
def delta_time_col : List ℚ → List ℚ
| [] => []
| t :: ts => 1 :: List.zipWith (fun a b => if a - b = 0 then 1 else a - b) ts (t :: ts)

/-- View of an optional numeric cell as a floating-point value. -/
def toFVal : Option ℚ → FVal
| none => FVal.nan
| some q => FVal.num q

/-- Write the constant `icao24` value back into every row (source line 121
overwrites the whole column with its first value / the string "unknown"). -/
def setIcaoAll (c : Option String) (rows : List CleanRow) : List CleanRow :=
  rows.map (fun r => { r with icao24 := c })

/-- The degrees-to-meters conversion constant of the source (line 103). -/
def DEG_TO_M : ℚ := 111000

/-- STEP 4 of the source (lines 88-121): derive all kinematic columns from
the interpolated rows and overwrite `icao24` with the constant `c`. -/
def deriveFrame (hasHeading : Bool) (rows : List CleanRow) (c : Option String) :
    EnrichedFrame :=
  let dt := delta_time_col (rows.map (fun r => r.time))
  let dtF := dt.map FVal.num
  let dlat := safe_diff (rows.map (fun r => toFVal r.latitude))
  let dlon := safe_diff (rows.map (fun r => toFVal r.longitude))
  let dalt := safe_diff (rows.map (fun r => toFVal r.baro_altitude))
  let dvel := safe_diff (rows.map (fun r => toFVal r.velocity))
  let vx := safe_div (dlon.map (fscale DEG_TO_M)) dtF
  let vy := safe_div (dlat.map (fscale DEG_TO_M)) dtF
  let vv := safe_div dalt dtF
  { rows := setIcaoAll c rows,
    hasHeading := hasHeading,
    delta_time := dt,
    delta_lat := dlat,
    delta_lon := dlon,
    delta_altitude := dalt,
    delta_velocity := dvel,
    vx := vx,
    vy := vy,
    v_vertical := vv,
    ax := safe_div (safe_diff vx) dtF,
    ay := safe_div (safe_diff vy) dtF,
    a_vertical := safe_div (safe_diff vv) dtF,
    delta_heading :=
      if hasHeading then safe_diff (rows.map (fun r => toFVal r.heading))
      else List.replicate rows.length (FVal.num 0),
    icao24 := c }

/-- Enrichment of the sorted/deduplicated rows: interpolation, feature
derivation, and the `icao24` assignment, which raises `IndexError` when an
`icao24` column is present but the frame has zero rows (source line 121). -/
def enrich (hasHeading hasIcao24 : Bool) (rows : List CleanRow) :
    Except PyErr EnrichedFrame :=
  let rows4 := step_interpolate rows
  if hasIcao24 then
    match rows4.head? with
    | none => Except.error PyErr.indexError
    | some r0 => Except.ok (deriveFrame hasHeading rows4 r0.icao24)
  else Except.ok (deriveFrame hasHeading rows4 (some "unknown"))

/-- Rows as they stand after column normalisation and the velocity
placeholder synthesis (source lines 52-55: a missing `velocity` column is
created as all zeros). -/
def rawRows0 (f : RawFrame) : List RawRow :=
  let rows0 := f.rows.map (normRow f.hasVelocity f.hasHeading f.hasIcao24)
  if f.hasVelocity then rows0
  else rows0.map (fun r => { r with velocity := some 0 })

/-- The cleaned, time-parsed, sorted, deduplicated rows of a file
(source lines 60-69). -/
def cleanStage (f : RawFrame) : List CleanRow :=
  dropDuplicates (sortByTime (((rawRows0 f).filter essentialOk).filterMap toCleanRow))

/-- `preprocess_file` (source lines 29-123). `Except.error` models an
uncaught Python exception; `Except.ok none` models the SKIP outcome
(returning `None`); `Except.ok (some e)` is a successfully enriched frame. -/
def preprocess_file (f : RawFrame) : Except PyErr (Option EnrichedFrame) :=
  if f.byteSize < 10 then Except.ok none
  else if ¬(f.hasTime ∧ f.hasLatitude ∧ f.hasLongitude ∧ f.hasBaroAltitude) then
    Except.ok none
  else if ((rawRows0 f).filter essentialOk).isEmpty then Except.ok none
  else (enrich f.hasHeading f.hasIcao24 (cleanStage f)).map some

/-! ### The batch driver (`preprocess_all`, source lines 126-142)

The loop body has no try/except: a `None` result is logged as a skip and
the loop continues, a successful frame is written to the single shared
`OUTPUT_CSV` path (overwriting the previous write), and an uncaught
exception propagates out of the loop, aborting the whole batch. -/

/-- Per-file outcome recorded by the batch loop. -/
inductive Outcome
| skipped : Outcome
| saved : Outcome
deriving DecidableEq, Repr

/-- Loop of `preprocess_all`: `written` is the current content of the single
shared `OUTPUT_CSV` artifact, `log` the outcomes so far (in order). -/
def preprocessAllAux : List RawFrame → Option EnrichedFrame → List Outcome →
    Except PyErr (Option EnrichedFrame × List Outcome)
| [], written, log => Except.ok (written, log.reverse)
| f :: fs, written, log =>
  match preprocess_file f with
  | Except.error e => Except.error e
  | Except.ok none => preprocessAllAux fs written (Outcome.skipped :: log)
  | Except.ok (some e) => preprocessAllAux fs (some e) (Outcome.saved :: log)

/-- `preprocess_all`: returns the final content of the shared output
artifact and the per-file log, or the first uncaught exception. -/
def preprocess_all (files : List RawFrame) :
    Except PyErr (Option EnrichedFrame × List Outcome) :=
  preprocessAllAux files none []

/-! ### The merger (`merge_processed.py`) -/

/-- Substring test, modelling Python's `"merged_dataset" not in f`. -/
def containsSub (pat s : List Char) : Bool :=
  s.tails.any (fun t => pat.isPrefixOf t)

/-- One processed table on disk: its file name and its rows (only the
`time` value of a row matters to the merger's sort). -/
structure ProcTable where
  filename : List Char
  rows : List ℚ
deriving DecidableEq, Repr

/-- Flight identifier assigned by discovery order: `flight_{idx+1:03d}`. -/
def flightId (idx : ℕ) : String :=
  let n := idx + 1
  "flight_" ++ (if n < 10 then "00" else if n < 100 then "0" else "") ++ Nat.repr n

/-- Order of the final `sort_values(by=["flight_id", "time"])`. -/
def mergeLE (a b : String × ℚ) : Prop :=
  a.1 < b.1 ∨ (a.1 = b.1 ∧ a.2 ≤ b.2)

instance : DecidableRel mergeLE := fun a b =>
  inferInstanceAs (Decidable (a.1 < b.1 ∨ (a.1 = b.1 ∧ a.2 ≤ b.2)))

/-- `merge_processed_files` (source lines 9-52): drop the merger's own
prior output artifacts, report an error (return `None`, write nothing) when
no table remains, otherwise tag each table with its flight id, concatenate,
sort and return the merged dataset (which the source then writes out). -/
def merge_processed_files (tables : List ProcTable) : Option (List (String × ℚ)) :=
  let files := tables.filter
    (fun t => ¬ containsSub "merged_dataset".toList t.filename)
  if files.length = 0 then none
  else
    let tagged := (files.enum.map
      (fun p => p.2.rows.map (fun q => (flightId p.1, q)))).flatten
    some (List.insertionSort mergeLE tagged)

/-! ### Lemmas about the arithmetic helpers -/

lemma fdiv_nan_right (v : FVal) : fdiv v FVal.nan = FVal.nan := by
  cases v <;> rfl

lemma clampFVal_num (v : FVal) : ∃ q, clampFVal v = FVal.num q := by
  cases v <;> exact ⟨_, rfl⟩

lemma safe_div_nil_left (ds : List FVal) : safe_div [] ds = [] := by
  simp [safe_div]

lemma safe_div_cons (n d : FVal) (ns ds : List FVal) :
    safe_div (n :: ns) (d :: ds) =
      clampFVal (fdiv n (if d = FVal.num 0 then FVal.nan else d)) :: safe_div ns ds := rfl

/-- C1: `safeDivide` is total: with equally long inputs the output has the
same length, every output entry is a finite number (no NaN, no infinity,
and the function is total so nothing is raised), and at every position
where the denominator is exactly 0 — including 0/0 — the result is 0. -/
theorem C1_safeDivide_total (ns ds : List FVal) (h : ns.length = ds.length) :
    (safe_div ns ds).length = ns.length ∧
    ∀ k, k < ns.length →
      (∃ q, (safe_div ns ds).getD k FVal.nan = FVal.num q) ∧
      (ds.getD k FVal.nan = FVal.num 0 →
        (safe_div ns ds).getD k FVal.nan = FVal.num 0) := by
  induction ns generalizing ds with
  | nil =>
    refine ⟨by simp [safe_div_nil_left], ?_⟩
    intro k hk
    simp at hk
  | cons n ns ih =>
    cases ds with
    | nil => simp at h
    | cons d ds =>
      have h' : ns.length = ds.length := by simpa using h
      obtain ⟨hl, hk⟩ := ih ds h'
      rw [safe_div_cons]
      refine ⟨by simpa using hl, ?_⟩
      intro k hkk
      cases k with
      | zero =>
        refine ⟨by simpa using clampFVal_num _, ?_⟩
        intro hd
        simp only [List.getD_cons_zero] at hd
        simp [hd, fdiv_nan_right, clampFVal]
      | succ k =>
        simp only [List.getD_cons_succ]
        exact hk k (by simpa using hkk)

/-- Witness for C1 at a concrete pair of sequences (containing a zero
denominator against a nonzero numerator, a NaN numerator, and an infinite
numerator over a zero denominator). -/
theorem C1_safeDivide_total_witness :
    (([FVal.num 3, FVal.nan, FVal.pinf] : List FVal).length =
      ([FVal.num 0, FVal.num 2, FVal.num 0] : List FVal).length) ∧
    ((safe_div [FVal.num 3, FVal.nan, FVal.pinf] [FVal.num 0, FVal.num 2, FVal.num 0]).length =
      ([FVal.num 3, FVal.nan, FVal.pinf] : List FVal).length ∧
     ∀ k, k < ([FVal.num 3, FVal.nan, FVal.pinf] : List FVal).length →
       (∃ q, (safe_div [FVal.num 3, FVal.nan, FVal.pinf]
           [FVal.num 0, FVal.num 2, FVal.num 0]).getD k FVal.nan = FVal.num q) ∧
       (([FVal.num 0, FVal.num 2, FVal.num 0] : List FVal).getD k FVal.nan = FVal.num 0 →
        (safe_div [FVal.num 3, FVal.nan, FVal.pinf]
           [FVal.num 0, FVal.num 2, FVal.num 0]).getD k FVal.nan = FVal.num 0)) :=
  ⟨by decide, C1_safeDivide_total _ _ (by decide)⟩

/-- Decidable equality for `Except` results, so that concrete pipeline runs
can be checked by `decide`. -/
instance exceptDecEq {ε α : Type} [DecidableEq ε] [DecidableEq α] :
    DecidableEq (Except ε α) := fun a b =>
  match a, b with
  | Except.error e, Except.error e' =>
    if h : e = e' then isTrue (by rw [h])
    else isFalse (fun hh => by cases hh; exact h rfl)
  | Except.error _, Except.ok _ => isFalse (fun hh => by cases hh)
  | Except.ok _, Except.error _ => isFalse (fun hh => by cases hh)
  | Except.ok x, Except.ok y =>
    if h : x = y then isTrue (by rw [h])
    else isFalse (fun hh => by cases hh; exact h rfl)

/-! ### Concrete example frames used by witnesses and counterexamples -/

/-- Short-hand raw-row constructor. -/
def mkRow (t : Cell) (la lo al v h : Option ℚ) (ic : Option String) : RawRow :=
  ⟨t, la, lo, al, v, h, ic⟩

/-- Two rows with the same time that differ only in `icao24`. -/
def exF2 : RawFrame :=
  { byteSize := 100, hasTime := true, hasLatitude := true, hasLongitude := true,
    hasBaroAltitude := true, hasVelocity := true, hasHeading := false, hasIcao24 := true,
    rows := [mkRow (Cell.val 0) (some 1) (some 2) (some 3) (some 4) none (some "aa"),
             mkRow (Cell.val 0) (some 1) (some 2) (some 3) (some 4) none (some "ab")] }

/-- Two rows half a second apart. -/
def exF4 : RawFrame :=
  { byteSize := 100, hasTime := true, hasLatitude := true, hasLongitude := true,
    hasBaroAltitude := true, hasVelocity := true, hasHeading := false, hasIcao24 := false,
    rows := [mkRow (Cell.val 0) (some 1) (some 2) (some 3) (some 4) none none,
             mkRow (Cell.val (1/2)) (some 1) (some 2) (some 3) (some 4) none none] }

/-- A frame with an `icao24` column whose single row passes the essential
presence check but has an unparseable `time`. -/
def exF10 : RawFrame :=
  { byteSize := 100, hasTime := true, hasLatitude := true, hasLongitude := true,
    hasBaroAltitude := true, hasVelocity := true, hasHeading := false, hasIcao24 := true,
    rows := [mkRow Cell.invalid (some 1) (some 2) (some 3) (some 4) none (some "aa")] }

/-- Like `exF10` but without an `icao24` column. -/
def exF10b : RawFrame :=
  { byteSize := 100, hasTime := true, hasLatitude := true, hasLongitude := true,
    hasBaroAltitude := true, hasVelocity := true, hasHeading := false, hasIcao24 := false,
    rows := [mkRow Cell.invalid (some 1) (some 2) (some 3) (some 4) none none] }

/-- Scenario D: latitude `[1, NaN, 3]` at times `[0, 10, 20]`. -/
def exF6 : RawFrame :=
  { byteSize := 100, hasTime := true, hasLatitude := true, hasLongitude := true,
    hasBaroAltitude := true, hasVelocity := true, hasHeading := false, hasIcao24 := false,
    rows := [mkRow (Cell.val 0) (some 1) (some 10) (some 100) (some 4) none none,
             mkRow (Cell.val 10) none (some 10) (some 100) (some 4) none none,
             mkRow (Cell.val 20) (some 3) (some 10) (some 100) (some 4) none none] }

/-- Velocity `[1, NaN, 3]` at times `[0, 10, 20]`, essentials complete. -/
def exF6v : RawFrame :=
  { byteSize := 100, hasTime := true, hasLatitude := true, hasLongitude := true,
    hasBaroAltitude := true, hasVelocity := true, hasHeading := false, hasIcao24 := false,
    rows := [mkRow (Cell.val 0) (some 1) (some 10) (some 100) (some 1) none none,
             mkRow (Cell.val 10) (some 2) (some 10) (some 100) none none none,
             mkRow (Cell.val 20) (some 3) (some 10) (some 100) (some 3) none none] }

/-- A file skipped for being effectively empty (size below 10 bytes). -/
def exSkip : RawFrame :=
  { byteSize := 5, hasTime := true, hasLatitude := true, hasLongitude := true,
    hasBaroAltitude := true, hasVelocity := true, hasHeading := false, hasIcao24 := false,
    rows := [] }

/-! ### C9: merging with zero input tables -/

/-- C9: when, after excluding the merger's own prior `merged_dataset`
artifacts, zero processed tables remain, `merge_processed_files` returns
`None` before any write happens (an error is reported, no output artifact
is produced). -/
theorem C9_merge_zero_inputs (tables : List ProcTable)
    (h : tables.filter
      (fun t => ¬ containsSub "merged_dataset".toList t.filename) = []) :
    merge_processed_files tables = none := by
  simp only [merge_processed_files, h]
  rfl

/-- Witness for C9: a directory containing only a previous merged artifact. -/
theorem C9_merge_zero_inputs_witness :
    ([⟨"merged_dataset.csv".toList, [1, 2]⟩] : List ProcTable).filter
      (fun t => ¬ containsSub "merged_dataset".toList t.filename) = [] ∧
    merge_processed_files [⟨"merged_dataset.csv".toList, [1, 2]⟩] = none :=
  ⟨by decide, C9_merge_zero_inputs _ (by decide)⟩

/-! ### C7 and C8: the batch driver -/

/-- The log accumulator of the batch loop only prepends. -/
lemma preprocessAllAux_append (files : List RawFrame) (w : Option EnrichedFrame)
    (log : List Outcome) :
    preprocessAllAux files w log =
      (preprocessAllAux files w []).map (fun p => (p.1, log.reverse ++ p.2)) := by
  induction files generalizing w log with
  | nil => simp [preprocessAllAux, Except.map]
  | cons f fs ih =>
    cases hf : preprocess_file f with
    | error e => simp [preprocessAllAux, hf, Except.map]
    | ok r =>
      cases r with
      | none =>
        simp only [preprocessAllAux, hf]
        rw [ih _ (Outcome.skipped :: log), ih _ [Outcome.skipped]]
        cases preprocessAllAux fs w [] with
        | error e => rfl
        | ok p => simp [Except.map]
      | some e =>
        simp only [preprocessAllAux, hf]
        rw [ih _ (Outcome.saved :: log), ih _ [Outcome.saved]]
        cases preprocessAllAux fs (some e) [] with
        | error e2 => rfl
        | ok p => simp [Except.map]

/-- When no file raises, the whole batch completes with one log entry per
file. -/
lemma preprocessAllAux_total (files : List RawFrame) :
    ∀ (w : Option EnrichedFrame) (log : List Outcome),
    (∀ g ∈ files, ∃ r, preprocess_file g = Except.ok r) →
    ∃ w' log', preprocessAllAux files w log = Except.ok (w', log') ∧
      log'.length = log.length + files.length := by
  induction files with
  | nil => intro w log _; exact ⟨w, log.reverse, rfl, by simp⟩
  | cons f fs ih =>
    intro w log h
    obtain ⟨r, hr⟩ := h f (by simp)
    have h' : ∀ g ∈ fs, ∃ r, preprocess_file g = Except.ok r :=
      fun g hg => h g (by simp [hg])
    cases r with
    | none =>
      obtain ⟨w', log', heq, hlen⟩ := ih w (Outcome.skipped :: log) h'
      refine ⟨w', log', ?_, ?_⟩
      · simp only [preprocessAllAux, hr]; exact heq
      · simp only [List.length_cons] at hlen; simp [hlen]; omega
    | some e =>
      obtain ⟨w', log', heq, hlen⟩ := ih (some e) (Outcome.saved :: log) h'
      refine ⟨w', log', ?_, ?_⟩
      · simp only [preprocessAllAux, hr]; exact heq
      · simp only [List.length_cons] at hlen; simp [hlen]; omega

/-- C7, amended: a SKIP outcome for one file does not abort the batch — the
skip is logged and the remaining files are processed exactly as they would
be on their own; consequently a batch in which no file raises completes
with one outcome per file. However (the amendment) an unexpected raised
error is NOT caught by `preprocess_all` — it propagates and aborts the
batch, so the later files are not processed. -/
theorem C7_batch_isolation (f : RawFrame) (fs : List RawFrame) :
    (preprocess_file f = Except.ok none →
      preprocess_all (f :: fs) =
        (preprocess_all fs).map (fun p => (p.1, Outcome.skipped :: p.2))) ∧
    (∀ e, preprocess_file f = Except.error e →
      preprocess_all (f :: fs) = Except.error e) ∧
    ((∀ g ∈ f :: fs, ∃ r, preprocess_file g = Except.ok r) →
      ∃ w log, preprocess_all (f :: fs) = Except.ok (w, log) ∧
        log.length = fs.length + 1) := by
  refine ⟨?_, ?_, ?_⟩
  · intro hf
    show preprocessAllAux (f :: fs) none [] = _
    simp only [preprocessAllAux, hf]
    rw [preprocessAllAux_append fs none [Outcome.skipped]]
    rfl
  · intro e hf
    show preprocessAllAux (f :: fs) none [] = _
    simp [preprocessAllAux, hf]
  · intro h
    obtain ⟨w, log, heq, hlen⟩ := preprocessAllAux_total (f :: fs) none [] h
    exact ⟨w, log, heq, by simpa [Nat.add_comm] using hlen⟩

/-- Witness for C7 at a concrete batch: an effectively-empty file is
skipped and the remaining file is still processed. -/
theorem C7_batch_isolation_witness :
    preprocess_file exSkip = Except.ok none ∧
    preprocess_all [exSkip, exF4] =
      (preprocess_all [exF4]).map (fun p => (p.1, Outcome.skipped :: p.2)) :=
  ⟨by decide, (C7_batch_isolation exSkip [exF4]).1 (by decide)⟩

/-- Counterexample to C7 as stated: in the batch `[exF10, exF4]` the first
file raises `IndexError` (source line 121 evaluates `df["icao24"].iloc[0]`
on a zero-row frame), the batch loop has no try/except, so the whole run
aborts and the second file — which on its own is processed successfully —
is never processed. -/
theorem C7_counterexample :
    preprocess_all [exF10, exF4] = Except.error PyErr.indexError ∧
    preprocess_all [exF4] =
      Except.ok (((preprocess_all [exF4]).toOption.getD (none, [])).1,
                 [Outcome.saved]) := by
  constructor
  · decide
  · decide

/-- The output that a single file contributes to the shared artifact:
`some` of its enriched frame on success, `none` on SKIP or error. -/
def savedOutput (f : RawFrame) : Option EnrichedFrame :=
  match preprocess_file f with
  | Except.ok (some e) => some e
  | _ => none

lemma getLast?_cons_orElse {α : Type} (a : α) (l : List α) (w : Option α) :
    ((a :: l).getLast? <|> w) = (l.getLast? <|> some a) := by
  cases l with
  | nil => simp
  | cons b l =>
    rw [List.getLast?_cons_cons]
    have : ∃ x, (b :: l).getLast? = some x := by
      have h := List.getLast?_isSome (l := b :: l)
      rw [Option.isSome_iff_exists] at h
      exact h.mpr (by simp)
    obtain ⟨x, hx⟩ := this
    simp [hx]

/-- The artifact content at the end of the loop is the last success. -/
lemma preprocessAllAux_written (files : List RawFrame) :
    ∀ (w : Option EnrichedFrame) (log : List Outcome) w' log',
    preprocessAllAux files w log = Except.ok (w', log') →
    w' = ((files.filterMap savedOutput).getLast? <|> w) := by
  induction files with
  | nil =>
    intro w log w' log' h
    simp only [preprocessAllAux, Except.ok.injEq, Prod.mk.injEq] at h
    simp [← h.1]
  | cons f fs ih =>
    intro w log w' log' h
    simp only [preprocessAllAux] at h
    cases hf : preprocess_file f with
    | error e => rw [hf] at h; cases h
    | ok r =>
      rw [hf] at h
      cases r with
      | none =>
        have hs : savedOutput f = none := by simp [savedOutput, hf]
        rw [List.filterMap_cons, hs]
        exact ih w _ w' log' h
      | some e =>
        have hs : savedOutput f = some e := by simp [savedOutput, hf]
        rw [List.filterMap_cons, hs]
        rw [getLast?_cons_orElse]
        exact ih (some e) _ w' log' h

/-- C8: last-write-wins persistence — every successful file overwrites the
single shared `OUTPUT_CSV`, so when the batch completes, the artifact holds
exactly the output of the last successfully processed file (and nothing
when no file succeeded). -/
theorem C8_last_write_wins (files : List RawFrame) (w : Option EnrichedFrame)
    (log : List Outcome) (h : preprocess_all files = Except.ok (w, log)) :
    w = (files.filterMap savedOutput).getLast? := by
  have := preprocessAllAux_written files none [] w log h
  simpa using this

/-- Witness for C8 at a concrete two-file batch in which both files succeed:
the persisted artifact is the second file's output. -/
theorem C8_last_write_wins_witness :
    preprocess_all [exF2, exF4] =
      Except.ok ((preprocess_all [exF2, exF4]).toOption.getD (none, [])) ∧
    ((preprocess_all [exF2, exF4]).toOption.getD (none, [])).1 =
      ([exF2, exF4].filterMap savedOutput).getLast? :=
  ⟨by decide,
   C8_last_write_wins [exF2, exF4]
     ((preprocess_all [exF2, exF4]).toOption.getD (none, [])).1
     ((preprocess_all [exF2, exF4]).toOption.getD (none, [])).2
     (by decide)⟩

/-! ### C4 and C10: inversion of a successful run, and `delta_time` -/

/-- A successful `preprocess_file` run returns exactly the enrichment of
the interpolated clean stage, for some constant `icao24` value. -/
lemma preprocess_file_ok_inv (f : RawFrame) (e : EnrichedFrame)
    (h : preprocess_file f = Except.ok (some e)) :
    ∃ c, e = deriveFrame f.hasHeading (step_interpolate (cleanStage f)) c := by
  unfold preprocess_file at h
  by_cases h1 : f.byteSize < 10
  · rw [if_pos h1] at h; simp at h
  rw [if_neg h1] at h
  by_cases h2 : ¬(f.hasTime ∧ f.hasLatitude ∧ f.hasLongitude ∧ f.hasBaroAltitude)
  · rw [if_pos h2] at h; simp at h
  rw [if_neg h2] at h
  by_cases h3 : ((rawRows0 f).filter essentialOk).isEmpty
  · rw [if_pos h3] at h; simp at h
  rw [if_neg h3] at h
  unfold enrich at h
  by_cases h4 : f.hasIcao24 = true
  · rw [if_pos h4] at h
    cases hh : (step_interpolate (cleanStage f)).head? with
    | none => rw [hh] at h; simp [Except.map] at h
    | some r0 =>
      rw [hh] at h
      simp only [Except.map, Except.ok.injEq, Option.some.injEq] at h
      exact ⟨r0.icao24, h.symm⟩
  · rw [if_neg h4] at h
    simp only [Except.map, Except.ok.injEq, Option.some.injEq] at h
    exact ⟨some "unknown", h.symm⟩

/-- `setIcaoAll` changes no field other than `icao24`; in particular the
`time` column is untouched. -/
lemma setIcaoAll_map_time (c : Option String) (rows : List CleanRow) :
    (setIcaoAll c rows).map (fun r => r.time) = rows.map (fun r => r.time) := by
  simp [setIcaoAll, List.map_map]

/-- The `delta_time` column of an enriched frame is computed from the
frame's own (icao-overwritten) rows. -/
lemma deriveFrame_delta_time (hh : Bool) (rows : List CleanRow) (c : Option String) :
    (deriveFrame hh rows c).delta_time =
      delta_time_col ((deriveFrame hh rows c).rows.map (fun r => r.time)) := by
  simp only [deriveFrame, setIcaoAll_map_time]

lemma deriveFrame_rows_length (hh : Bool) (rows : List CleanRow) (c : Option String) :
    (deriveFrame hh rows c).rows.length = rows.length := by
  simp [deriveFrame, setIcaoAll]

lemma delta_time_col_length (ts : List ℚ) : (delta_time_col ts).length = ts.length := by
  cases ts with
  | nil => rfl
  | cons t ts => simp [delta_time_col]

lemma delta_time_col_head (t : ℚ) (ts : List ℚ) :
    (delta_time_col (t :: ts)).getD 0 0 = 1 := rfl

lemma delta_time_col_succ (ts : List ℚ) (i : ℕ) (h : i + 1 < ts.length) :
    (delta_time_col ts).getD (i + 1) 0 =
      if ts.getD (i + 1) 0 - ts.getD i 0 = 0 then 1
      else ts.getD (i + 1) 0 - ts.getD i 0 := by
  cases ts with
  | nil => simp at h
  | cons t ts =>
    have hi : i < ts.length := by simpa using h
    have hz : i < (List.zipWith (fun a b => if a - b = 0 then 1 else a - b) ts (t :: ts)).length := by
      simp; omega
    show (List.zipWith (fun a b => if a - b = 0 then 1 else a - b) ts (t :: ts)).getD i 0 = _
    rw [List.getD_eq_getElem _ _ hz, List.getElem_zipWith]
    have h1 : (t :: ts).getD (i + 1) 0 = ts.getD i 0 := rfl
    have h2 : ts[i] = ts.getD i 0 := (List.getD_eq_getElem ts 0 hi).symm
    have h3 : (t :: ts)[i] = (t :: ts).getD i 0 :=
      (List.getD_eq_getElem (t :: ts) 0 (by simp; omega)).symm
    rw [h1, h2, h3]

/-- Every `delta_time` entry is positive as soon as the times are
non-decreasing (a zero difference is replaced by 1). -/
lemma delta_time_col_pos (ts : List ℚ) (hs : List.Sorted (· ≤ ·) ts) :
    ∀ i, i < ts.length → 0 < (delta_time_col ts).getD i 0 := by
  intro i hi
  cases ts with
  | nil => simp at hi
  | cons t ts =>
    cases i with
    | zero => rw [delta_time_col_head]; norm_num
    | succ i =>
      rw [delta_time_col_succ _ _ hi]
      have hi1 : i < (t :: ts).length := by simp at hi ⊢; omega
      have hi2 : i + 1 < (t :: ts).length := hi
      have hle : (t :: ts).getD i 0 ≤ (t :: ts).getD (i + 1) 0 := by
        have h' := List.pairwise_iff_getElem.mp hs i (i + 1) hi1 hi2 (by omega)
        rw [List.getD_eq_getElem _ _ hi1, List.getD_eq_getElem _ _ hi2]
        exact h'
      by_cases hz : (t :: ts).getD (i + 1) 0 - (t :: ts).getD i 0 = 0
      · rw [if_pos hz]; norm_num
      · rw [if_neg hz]
        have : 0 ≤ (t :: ts).getD (i + 1) 0 - (t :: ts).getD i 0 := by linarith
        exact lt_of_le_of_ne this (Ne.symm hz)

/-- With integer-valued (whole-second) timestamps, every `delta_time`
entry is at least 1. -/
lemma delta_time_col_ge_one (ts : List ℚ) (hs : List.Sorted (· ≤ ·) ts)
    (hint : ∀ t ∈ ts, ∃ n : ℤ, t = (n : ℚ)) :
    ∀ i, i < ts.length → 1 ≤ (delta_time_col ts).getD i 0 := by
  intro i hi
  cases ts with
  | nil => simp at hi
  | cons t ts =>
    cases i with
    | zero => rw [delta_time_col_head]
    | succ i =>
      rw [delta_time_col_succ _ _ hi]
      by_cases hz : (t :: ts).getD (i + 1) 0 - (t :: ts).getD i 0 = 0
      · rw [if_pos hz]
      · rw [if_neg hz]
        have hi1 : i < (t :: ts).length := by simp at hi ⊢; omega
        have hi2 : i + 1 < (t :: ts).length := by simpa using hi
        have hle : (t :: ts).getD i 0 ≤ (t :: ts).getD (i + 1) 0 := by
          have h' := List.pairwise_iff_getElem.mp hs i (i + 1) hi1 hi2 (by omega)
          rw [List.getD_eq_getElem _ _ hi1, List.getD_eq_getElem _ _ hi2]
          exact h'
        obtain ⟨n, hn⟩ := hint ((t :: ts).getD i 0)
          (by rw [List.getD_eq_getElem _ _ hi1]; exact List.getElem_mem _)
        obtain ⟨m, hm⟩ := hint ((t :: ts).getD (i + 1) 0)
          (by rw [List.getD_eq_getElem _ _ hi2]; exact List.getElem_mem _)
        rw [hn, hm] at hz hle ⊢
        have hnm : n < m := by exact_mod_cast lt_of_le_of_ne hle (by
          intro hh; exact hz (by rw [hh]; ring))
        have hq : ((n : ℚ)) + 1 ≤ (m : ℚ) := by exact_mod_cast hnm
        linarith

/-- The enriched frame produced by a concrete successful run (used to spell
out witnesses without writing the whole structure literal). -/
def outOf (f : RawFrame) : EnrichedFrame :=
  match preprocess_file f with
  | Except.ok (some e) => e
  | _ => default

/-- C4, amended: for every cleaned trajectory with monotonically
increasing, duplicate-free timestamps, `delta_time[0] = 1` and
`delta_time[i] = time[i] - time[i-1]` with an exact-0 difference replaced
by 1; hence every `delta_time` entry is positive, and it is at least 1
whenever the timestamps are whole (integer) seconds — but with
fractional-second timestamps an entry can be smaller than 1. -/
theorem C4_delta_time_invariants (f : RawFrame) (e : EnrichedFrame)
    (h : preprocess_file f = Except.ok (some e))
    (hmono : List.Sorted (· < ·) (e.rows.map (fun r => r.time))) :
    (e.rows ≠ [] → e.delta_time.getD 0 0 = 1) ∧
    (∀ i, i + 1 < e.rows.length →
      e.delta_time.getD (i + 1) 0 =
        (if (e.rows.map (fun r => r.time)).getD (i + 1) 0 -
            (e.rows.map (fun r => r.time)).getD i 0 = 0 then 1
         else (e.rows.map (fun r => r.time)).getD (i + 1) 0 -
              (e.rows.map (fun r => r.time)).getD i 0)) ∧
    (∀ i, i < e.rows.length → 0 < e.delta_time.getD i 0) ∧
    ((∀ r ∈ e.rows, ∃ n : ℤ, r.time = (n : ℚ)) →
      ∀ i, i < e.rows.length → 1 ≤ e.delta_time.getD i 0) := by
  obtain ⟨c, he⟩ := preprocess_file_ok_inv f e h
  have hdt : e.delta_time = delta_time_col (e.rows.map (fun r => r.time)) := by
    rw [he]
    exact deriveFrame_delta_time _ _ _
  have hlen : (e.rows.map (fun r => r.time)).length = e.rows.length := by simp
  have hsle : List.Sorted (· ≤ ·) (e.rows.map (fun r => r.time)) :=
    hmono.imp le_of_lt
  refine ⟨?_, ?_, ?_, ?_⟩
  · intro hne
    rw [hdt]
    cases hrows : e.rows with
    | nil => exact absurd hrows hne
    | cons r rs => rw [List.map_cons]; exact delta_time_col_head _ _
  · intro i hi
    rw [hdt, delta_time_col_succ _ _ (by rw [hlen]; exact hi)]
  · intro i hi
    rw [hdt]
    exact delta_time_col_pos _ hsle i (by rw [hlen]; exact hi)
  · intro hint i hi
    rw [hdt]
    refine delta_time_col_ge_one _ hsle ?_ i (by rw [hlen]; exact hi)
    intro t ht
    obtain ⟨r, hr, rfl⟩ := List.mem_map.mp ht
    exact hint r hr

/-- Witness for C4 at the concrete frame `exF6` (times 0, 10, 20). -/
theorem C4_delta_time_invariants_witness :
    preprocess_file exF6 = Except.ok (some (outOf exF6)) ∧
    List.Sorted (· < ·) ((outOf exF6).rows.map (fun r => r.time)) ∧
    (((outOf exF6).rows ≠ [] → (outOf exF6).delta_time.getD 0 0 = 1) ∧
     (∀ i, i + 1 < (outOf exF6).rows.length →
       (outOf exF6).delta_time.getD (i + 1) 0 =
         (if ((outOf exF6).rows.map (fun r => r.time)).getD (i + 1) 0 -
             ((outOf exF6).rows.map (fun r => r.time)).getD i 0 = 0 then 1
          else ((outOf exF6).rows.map (fun r => r.time)).getD (i + 1) 0 -
               ((outOf exF6).rows.map (fun r => r.time)).getD i 0)) ∧
     (∀ i, i < (outOf exF6).rows.length → 0 < (outOf exF6).delta_time.getD i 0) ∧
     ((∀ r ∈ (outOf exF6).rows, ∃ n : ℤ, r.time = (n : ℚ)) →
       ∀ i, i < (outOf exF6).rows.length → 1 ≤ (outOf exF6).delta_time.getD i 0)) :=
  ⟨by decide, by decide,
   C4_delta_time_invariants exF6 (outOf exF6) (by decide) (by decide)⟩

/-- Counterexample to C4 as stated: the cleaned trajectory of `exF4` has
strictly increasing, duplicate-free timestamps `[0, 1/2]` (half-second
spacing, which `to_datetime(unit="s")` accepts), yet its `delta_time`
column is `[1, 1/2]`, so `delta_time[1] ≥ 1` fails. -/
theorem C4_counterexample :
    preprocess_file exF4 = Except.ok (some (outOf exF4)) ∧
    (outOf exF4).rows.map (fun r => r.time) = [0, 1/2] ∧
    List.Sorted (· < ·) [(0 : ℚ), 1/2] ∧
    (outOf exF4).delta_time = [1, 1/2] ∧
    ¬ (1 ≤ ((1 : ℚ)/2)) := by
  refine ⟨by decide, by decide, by decide, by decide, by decide⟩

/-! ### C10: the all-unparseable-times edge case -/

lemma essentialOk_normRow (hv hh hi : Bool) (r : RawRow) :
    essentialOk (normRow hv hh hi r) = essentialOk r := rfl

lemma time_normRow (hv hh hi : Bool) (r : RawRow) :
    (normRow hv hh hi r).time = r.time := rfl

/-- Rows of `rawRows0` inherit the essential-field status and the time cell
of the underlying raw rows (the velocity placeholder and the column
normalisation touch neither). -/
lemma rawRows0_inherits (f : RawFrame) :
    ∀ r' ∈ rawRows0 f, ∃ r ∈ f.rows,
      essentialOk r' = essentialOk r ∧ r'.time = r.time := by
  intro r' hr'
  unfold rawRows0 at hr'
  by_cases hv : f.hasVelocity = true
  · rw [if_pos hv] at hr'
    obtain ⟨r, hr, rfl⟩ := List.mem_map.mp hr'
    exact ⟨r, hr, rfl, rfl⟩
  · rw [if_neg hv] at hr'
    rw [List.map_map] at hr'
    obtain ⟨r, hr, rfl⟩ := List.mem_map.mp hr'
    exact ⟨r, hr, rfl, rfl⟩

lemma rawRows0_length (f : RawFrame) : (rawRows0 f).length = f.rows.length := by
  unfold rawRows0
  by_cases hv : f.hasVelocity = true
  · rw [if_pos hv]; simp
  · rw [if_neg hv]; simp

/-- C10, amended: when every row passes the essential-field presence check
but every `time` value is unparseable, the cleaner does not SKIP with
"empty after filtering" (that check ran before the bad timestamps were
dropped). What happens instead depends on the `icao24` column: without it
the cleaner returns a zero-row enriched table; with it, the
`df["icao24"].iloc[0]` access on the zero-row frame raises `IndexError`. -/
theorem C10_unparseable_times (f : RawFrame)
    (hb : ¬ f.byteSize < 10)
    (hcols : f.hasTime ∧ f.hasLatitude ∧ f.hasLongitude ∧ f.hasBaroAltitude)
    (hne : f.rows ≠ [])
    (hrows : ∀ r ∈ f.rows, essentialOk r = true ∧ r.time = Cell.invalid) :
    (f.hasIcao24 = true → preprocess_file f = Except.error PyErr.indexError) ∧
    (f.hasIcao24 = false →
      preprocess_file f =
        Except.ok (some (deriveFrame f.hasHeading [] (some "unknown")))) := by
  have hfilter : (rawRows0 f).filter essentialOk = rawRows0 f := by
    rw [List.filter_eq_self]
    intro r' hr'
    obtain ⟨r, hr, hok, _⟩ := rawRows0_inherits f r' hr'
    rw [hok]
    exact (hrows r hr).1
  have hnotempty : ¬ ((rawRows0 f).filter essentialOk).isEmpty = true := by
    rw [hfilter, List.isEmpty_iff]
    intro hh
    have := rawRows0_length f
    rw [hh] at this
    exact hne (List.length_eq_zero.mp this.symm)
  have hclean : cleanStage f = [] := by
    unfold cleanStage
    rw [hfilter]
    have : (rawRows0 f).filterMap toCleanRow = [] := by
      rw [List.filterMap_eq_nil_iff]
      intro r' hr'
      obtain ⟨r, hr, _, ht⟩ := rawRows0_inherits f r' hr'
      unfold toCleanRow
      rw [ht, (hrows r hr).2]
    rw [this]
    rfl
  have hstep : step_interpolate (cleanStage f) = [] := by rw [hclean]; rfl
  constructor
  · intro hic
    unfold preprocess_file
    rw [if_neg hb, if_neg (not_not_intro hcols), if_neg hnotempty]
    unfold enrich
    rw [hstep, hic]
    rfl
  · intro hic
    unfold preprocess_file
    rw [if_neg hb, if_neg (not_not_intro hcols), if_neg hnotempty]
    unfold enrich
    rw [hstep, hic]
    rfl

/-- Witness for C10 at `exF10b` (no `icao24` column): a zero-row enriched
table is returned. -/
theorem C10_unparseable_times_witness :
    (¬ exF10b.byteSize < 10) ∧
    (exF10b.hasTime ∧ exF10b.hasLatitude ∧ exF10b.hasLongitude ∧ exF10b.hasBaroAltitude) ∧
    exF10b.rows ≠ [] ∧
    (∀ r ∈ exF10b.rows, essentialOk r = true ∧ r.time = Cell.invalid) ∧
    ((exF10b.hasIcao24 = true → preprocess_file exF10b = Except.error PyErr.indexError) ∧
     (exF10b.hasIcao24 = false →
       preprocess_file exF10b =
         Except.ok (some (deriveFrame exF10b.hasHeading [] (some "unknown"))))) :=
  ⟨by decide, by decide, by decide, by decide,
   C10_unparseable_times exF10b (by decide) (by decide) (by decide) (by decide)⟩

/-- Counterexample to C10 as stated: `exF10` has an `icao24` column and a
single row whose essential fields are present but whose `time` value is
unparseable; instead of returning a zero-row enriched table, the cleaner
raises `IndexError`. -/
theorem C10_counterexample :
    (∀ r ∈ exF10.rows, essentialOk r = true ∧ r.time = Cell.invalid) ∧
    preprocess_file exF10 = Except.error PyErr.indexError := by
  exact ⟨by decide, by decide⟩

/-! ### C5: the derived kinematic columns -/

lemma safe_diff_length (xs : List FVal) : (safe_diff xs).length = xs.length := by
  cases xs with
  | nil => rfl
  | cons x xs => simp [safe_diff, sdiff]

lemma safe_div_length (ns ds : List FVal) :
    (safe_div ns ds).length = min ns.length ds.length := by
  simp [safe_div]

lemma safe_diff_head_zero (l : List FVal) (h : l ≠ []) :
    (safe_diff l).getD 0 FVal.nan = FVal.num 0 := by
  cases l with
  | nil => exact absurd rfl h
  | cons x xs => rfl

lemma map_fscale_head_zero (c : ℚ) (l : List FVal)
    (h : l.getD 0 FVal.nan = FVal.num 0) (hl : l ≠ []) :
    (l.map (fscale c)).getD 0 FVal.nan = FVal.num 0 := by
  cases l with
  | nil => exact absurd rfl hl
  | cons x xs =>
    have hx : x = FVal.num 0 := by simpa using h
    subst hx
    show FVal.num (c * 0) = FVal.num 0
    rw [mul_zero]

/-- The head of a `safe_div` result whose numerator head is (an expression
equal to) zero is exactly zero, whatever the denominator head is. -/
lemma safe_div_head_zero (q : ℚ) (hq : q = 0) (y : FVal) (ns ds : List FVal) :
    (safe_div (FVal.num q :: ns) (y :: ds)).getD 0 FVal.nan = FVal.num 0 := by
  subst hq
  rw [safe_div_cons]
  by_cases hy : y = FVal.num 0
  · subst hy
    simp [fdiv_nan_right, clampFVal]
  · rw [if_neg hy]
    cases y with
    | nan => simp [fdiv, clampFVal]
    | pinf => rfl
    | ninf => rfl
    | num b =>
      have hb : b ≠ 0 := fun hh => hy (by rw [hh])
      simp [fdiv, hb, clampFVal]

/-- The head of a `safe_div` with a zero numerator head is zero. -/
lemma safe_div_head_zero_of (ns ds : List FVal)
    (hn : ns.getD 0 FVal.nan = FVal.num 0) (hns : ns ≠ []) (hds : ds ≠ []) :
    (safe_div ns ds).getD 0 FVal.nan = FVal.num 0 := by
  cases ns with
  | nil => exact absurd rfl hns
  | cons n ns =>
    cases ds with
    | nil => exact absurd rfl hds
    | cons d ds =>
      have hn' : n = FVal.num 0 := by simpa using hn
      subst hn'
      exact safe_div_head_zero 0 rfl d ns ds

/-- The property package of C5 for an enriched frame `e`: the derived
kinematic columns are exactly the stated compositions of `safeDivide`,
`safeDifference` and the 111000 deg-to-m scaling; every derived column has
the same length as the cleaned trajectory; and every first-difference-based
field is 0 at index 0. -/
def derivedColumnsSpec (e : EnrichedFrame) : Prop :=
  (e.delta_lat = safe_diff (e.rows.map (fun r => toFVal r.latitude)) ∧
   e.delta_lon = safe_diff (e.rows.map (fun r => toFVal r.longitude)) ∧
   e.delta_altitude = safe_diff (e.rows.map (fun r => toFVal r.baro_altitude)) ∧
   e.delta_velocity = safe_diff (e.rows.map (fun r => toFVal r.velocity)) ∧
   e.vx = safe_div (e.delta_lon.map (fscale DEG_TO_M)) (e.delta_time.map FVal.num) ∧
   e.vy = safe_div (e.delta_lat.map (fscale DEG_TO_M)) (e.delta_time.map FVal.num) ∧
   e.v_vertical = safe_div e.delta_altitude (e.delta_time.map FVal.num) ∧
   e.ax = safe_div (safe_diff e.vx) (e.delta_time.map FVal.num) ∧
   e.ay = safe_div (safe_diff e.vy) (e.delta_time.map FVal.num) ∧
   e.a_vertical = safe_div (safe_diff e.v_vertical) (e.delta_time.map FVal.num)) ∧
  (e.delta_time.length = e.rows.length ∧
   e.delta_lat.length = e.rows.length ∧
   e.delta_lon.length = e.rows.length ∧
   e.delta_altitude.length = e.rows.length ∧
   e.delta_velocity.length = e.rows.length ∧
   e.vx.length = e.rows.length ∧
   e.vy.length = e.rows.length ∧
   e.v_vertical.length = e.rows.length ∧
   e.ax.length = e.rows.length ∧
   e.ay.length = e.rows.length ∧
   e.a_vertical.length = e.rows.length ∧
   e.delta_heading.length = e.rows.length) ∧
  (e.rows ≠ [] →
    e.delta_lat.getD 0 FVal.nan = FVal.num 0 ∧
    e.delta_lon.getD 0 FVal.nan = FVal.num 0 ∧
    e.delta_altitude.getD 0 FVal.nan = FVal.num 0 ∧
    e.delta_velocity.getD 0 FVal.nan = FVal.num 0 ∧
    e.vx.getD 0 FVal.nan = FVal.num 0 ∧
    e.vy.getD 0 FVal.nan = FVal.num 0 ∧
    e.v_vertical.getD 0 FVal.nan = FVal.num 0 ∧
    e.ax.getD 0 FVal.nan = FVal.num 0 ∧
    e.ay.getD 0 FVal.nan = FVal.num 0 ∧
    e.a_vertical.getD 0 FVal.nan = FVal.num 0 ∧
    e.delta_heading.getD 0 FVal.nan = FVal.num 0)

/-- Every frame built by `deriveFrame` satisfies the C5 property package. -/
lemma deriveFrame_derivedColumnsSpec (hh : Bool) (rows : List CleanRow)
    (c : Option String) : derivedColumnsSpec (deriveFrame hh rows c) := by
  unfold derivedColumnsSpec
  refine ⟨?_, ?_, ?_⟩
  · refine ⟨?_, ?_, ?_, ?_, rfl, rfl, rfl, rfl, rfl, rfl⟩ <;>
      simp [deriveFrame, setIcaoAll, List.map_map] <;> rfl
  · refine ⟨?_, ?_, ?_, ?_, ?_, ?_, ?_, ?_, ?_, ?_, ?_, ?_⟩ <;>
      simp [deriveFrame, setIcaoAll, safe_div_length, safe_diff_length,
        delta_time_col_length]
    by_cases hhh : hh = true <;> simp [hhh, safe_diff_length]
  · intro hne
    have hne' : rows ≠ [] := by
      intro hh'
      apply hne
      simp [deriveFrame, setIcaoAll, hh']
    have hmapne : ∀ (g : CleanRow → FVal), rows.map g ≠ [] := by
      intro g hg
      exact hne' (List.map_eq_nil_iff.mp hg)
    have hdtne : (delta_time_col (rows.map (fun x => x.time))).map FVal.num ≠ [] := by
      intro hg
      have := congrArg List.length hg
      simp [delta_time_col_length] at this
      exact hne' this
    have hlat0 := safe_diff_head_zero (rows.map (fun x => toFVal x.latitude))
      (hmapne _)
    have hlon0 := safe_diff_head_zero (rows.map (fun x => toFVal x.longitude))
      (hmapne _)
    have halt0 := safe_diff_head_zero (rows.map (fun x => toFVal x.baro_altitude))
      (hmapne _)
    have hvel0 := safe_diff_head_zero (rows.map (fun x => toFVal x.velocity))
      (hmapne _)
    have hdiffne : ∀ (l : List FVal), l ≠ [] → safe_diff l ≠ [] := by
      intro l hl hg
      have := congrArg List.length hg
      rw [safe_diff_length] at this
      exact hl (List.length_eq_zero.mp this)
    have hmapfne : ∀ (l : List FVal) (c' : ℚ), l ≠ [] → l.map (fscale c') ≠ [] := by
      intro l c' hl hg
      exact hl (List.map_eq_nil_iff.mp hg)
    have hdivne : ∀ (ns ds : List FVal), ns ≠ [] → ds ≠ [] → safe_div ns ds ≠ [] := by
      intro ns ds hn hd hg
      have := congrArg List.length hg
      rw [safe_div_length] at this
      simp at this
      rcases this with h' | h'
      · exact hn h'
      · exact hd h'
    refine ⟨hlat0, hlon0, halt0, hvel0,
      safe_div_head_zero_of _ _
        (map_fscale_head_zero _ _ hlon0 (hdiffne _ (hmapne _)))
        (hmapfne _ _ (hdiffne _ (hmapne _))) hdtne,
      safe_div_head_zero_of _ _
        (map_fscale_head_zero _ _ hlat0 (hdiffne _ (hmapne _)))
        (hmapfne _ _ (hdiffne _ (hmapne _))) hdtne,
      safe_div_head_zero_of _ _ halt0 (hdiffne _ (hmapne _)) hdtne,
      safe_div_head_zero_of _ _
        (safe_diff_head_zero _ (hdivne _ _ (hmapfne _ _ (hdiffne _ (hmapne _))) hdtne))
        (hdiffne _ (hdivne _ _ (hmapfne _ _ (hdiffne _ (hmapne _))) hdtne)) hdtne,
      safe_div_head_zero_of _ _
        (safe_diff_head_zero _ (hdivne _ _ (hmapfne _ _ (hdiffne _ (hmapne _))) hdtne))
        (hdiffne _ (hdivne _ _ (hmapfne _ _ (hdiffne _ (hmapne _))) hdtne)) hdtne,
      safe_div_head_zero_of _ _
        (safe_diff_head_zero _ (hdivne _ _ (hdiffne _ (hmapne _)) hdtne))
        (hdiffne _ (hdivne _ _ (hdiffne _ (hmapne _)) hdtne)) hdtne,
      ?_⟩
    show ((if hh = true then
        safe_diff (rows.map (fun r => toFVal r.heading))
      else List.replicate rows.length (FVal.num 0)) : List FVal).getD 0 FVal.nan
        = FVal.num 0
    by_cases hhh : hh = true
    · rw [if_pos hhh]
      exact safe_diff_head_zero _ (hmapne _)
    · rw [if_neg hhh]
      obtain ⟨r, rs, hr⟩ := List.exists_cons_of_ne_nil hne'
      rw [hr]
      rfl

/-- C5: every successfully cleaned trajectory carries derived columns that
are exactly the stated compositions, of the same length as the trajectory,
with every first-difference-based field equal to 0 at index 0
(see `derivedColumnsSpec`). -/
theorem C5_derived_columns (f : RawFrame) (e : EnrichedFrame)
    (h : preprocess_file f = Except.ok (some e)) : derivedColumnsSpec e := by
  obtain ⟨c, he⟩ := preprocess_file_ok_inv f e h
  rw [he]
  exact deriveFrame_derivedColumnsSpec _ _ _

/-- Witness for C5 at the concrete frame `exF6`. -/
theorem C5_derived_columns_witness :
    preprocess_file exF6 = Except.ok (some (outOf exF6)) ∧
    derivedColumnsSpec (outOf exF6) :=
  ⟨by decide, C5_derived_columns exF6 (outOf exF6) (by decide)⟩

/-! ### C6: characterisation of the gap filling -/

lemma rangeMap_getD {α : Type} (g : ℕ → α) (d : α) (n k : ℕ) (hk : k < n) :
    ((List.range n).map g).getD k d = g k := by
  rw [List.getD_eq_getElem _ _ (by simpa using hk)]
  simp

lemma interpolateLinear_length (xs : List (Option ℚ)) :
    (interpolateLinear xs).length = xs.length := by simp [interpolateLinear]

lemma bfill_length (ys : List (Option ℚ)) : (bfill ys).length = ys.length := by
  simp [bfill]

lemma ffill_length (ys : List (Option ℚ)) : (ffill ys).length = ys.length := by
  simp [ffill]

lemma fillColumn_length (xs : List (Option ℚ)) :
    (fillColumn xs).length = xs.length := by
  simp [fillColumn, ffill_length, bfill_length, interpolateLinear_length]

lemma interpolateLinear_getD (xs : List (Option ℚ)) (k : ℕ) (hk : k < xs.length) :
    (interpolateLinear xs).getD k none = interpAt xs k :=
  rangeMap_getD _ _ _ _ hk

lemma bfill_getD (ys : List (Option ℚ)) (k : ℕ) (hk : k < ys.length) :
    (bfill ys).getD k none =
      (match ys.getD k none with
       | some v => some v
       | none => nextValidAt ys k) :=
  rangeMap_getD _ _ _ _ hk

lemma ffill_getD (ys : List (Option ℚ)) (k : ℕ) (hk : k < ys.length) :
    (ffill ys).getD k none =
      (match ys.getD k none with
       | some v => some v
       | none => prevValidAt ys k) :=
  rangeMap_getD _ _ _ _ hk

lemma getD_some_lt_length (xs : List (Option ℚ)) (k : ℕ) (v : ℚ)
    (h : xs.getD k none = some v) : k < xs.length := by
  by_contra hk
  rw [List.getD_eq_default _ _ (by omega)] at h
  cases h

lemma prevValidIdx_none (xs : List (Option ℚ)) (k : ℕ)
    (h : prevValidIdx xs k = none) : ∀ m, m < k → xs.getD m none = none := by
  induction k with
  | zero => intro m hm; omega
  | succ k ih =>
    intro m hm
    rw [prevValidIdx] at h
    cases hx : xs.getD k none with
    | some v => rw [hx] at h; cases h
    | none =>
      rw [hx] at h
      by_cases hmk : m = k
      · rw [hmk]; exact hx
      · exact ih h m (by omega)

lemma prevValidIdx_some (xs : List (Option ℚ)) (k i : ℕ) (vi : ℚ)
    (h : prevValidIdx xs k = some (i, vi)) :
    i < k ∧ xs.getD i none = some vi ∧
      ∀ m, i < m → m < k → xs.getD m none = none := by
  induction k with
  | zero => cases h
  | succ k ih =>
    rw [prevValidIdx] at h
    cases hx : xs.getD k none with
    | some v =>
      rw [hx] at h
      have h1 : k = i ∧ v = vi := by
        have := h
        simp at this
        exact this
      obtain ⟨rfl, rfl⟩ := h1
      exact ⟨by omega, hx, fun m hm1 hm2 => by omega⟩
    | none =>
      rw [hx] at h
      obtain ⟨h1, h2, h3⟩ := ih h
      refine ⟨by omega, h2, ?_⟩
      intro m hm1 hm2
      by_cases hmk : m = k
      · rw [hmk]; exact hx
      · exact h3 m hm1 (by omega)

lemma findValidFrom_none (xs : List (Option ℚ)) :
    ∀ (fuel j : ℕ), findValidFrom xs j fuel = none →
      ∀ m, j ≤ m → m < j + fuel → xs.getD m none = none := by
  intro fuel
  induction fuel with
  | zero => intro j _ m hm1 hm2; omega
  | succ fuel ih =>
    intro j h m hm1 hm2
    rw [findValidFrom] at h
    cases hx : xs.getD j none with
    | some v => rw [hx] at h; cases h
    | none =>
      rw [hx] at h
      by_cases hmj : m = j
      · rw [hmj]; exact hx
      · exact ih (j + 1) h m (by omega) (by omega)

lemma findValidFrom_some (xs : List (Option ℚ)) :
    ∀ (fuel j j' : ℕ) (v : ℚ), findValidFrom xs j fuel = some (j', v) →
      j ≤ j' ∧ xs.getD j' none = some v ∧
        ∀ m, j ≤ m → m < j' → xs.getD m none = none := by
  intro fuel
  induction fuel with
  | zero => intro j j' v h; cases h
  | succ fuel ih =>
    intro j j' v h
    rw [findValidFrom] at h
    cases hx : xs.getD j none with
    | some w =>
      rw [hx] at h
      have h1 : j = j' ∧ w = v := by simpa using h
      obtain ⟨rfl, rfl⟩ := h1
      exact ⟨le_refl _, hx, fun m hm1 hm2 => by omega⟩
    | none =>
      rw [hx] at h
      obtain ⟨h1, h2, h3⟩ := ih (j + 1) j' v h
      refine ⟨by omega, h2, ?_⟩
      intro m hm1 hm2
      by_cases hmj : m = j
      · rw [hmj]; exact hx
      · exact h3 m (by omega) hm2

lemma nextValidIdx_none (xs : List (Option ℚ)) (k : ℕ)
    (h : nextValidIdx xs k = none) : ∀ m, k < m → xs.getD m none = none := by
  intro m hm
  by_cases hmlen : m < xs.length
  · exact findValidFrom_none xs _ _ h m (by omega) (by omega)
  · exact List.getD_eq_default _ _ (by omega)

lemma nextValidIdx_some (xs : List (Option ℚ)) (k j : ℕ) (vj : ℚ)
    (h : nextValidIdx xs k = some (j, vj)) :
    k < j ∧ xs.getD j none = some vj ∧
      ∀ m, k < m → m < j → xs.getD m none = none := by
  obtain ⟨h1, h2, h3⟩ := findValidFrom_some xs _ _ _ _ h
  exact ⟨by omega, h2, fun m hm1 hm2 => h3 m (by omega) hm2⟩

lemma interpAt_of_some (xs : List (Option ℚ)) (k : ℕ) (v : ℚ)
    (h : xs.getD k none = some v) : interpAt xs k = some v := by
  unfold interpAt
  rw [h]

/-- `nextValidAt` finds the first valid entry when everything before it in
the scanned range is missing. -/
lemma nextValidAt_eq (ys : List (Option ℚ)) :
    ∀ (d k j : ℕ) (v : ℚ), j - k = d → k ≤ j → j < ys.length →
      (∀ m, k ≤ m → m < j → ys.getD m none = none) →
      ys.getD j none = some v → nextValidAt ys k = some v := by
  intro d
  induction d with
  | zero =>
    intro k j v hd hkj hj hnone hv
    have hkj' : k = j := by omega
    subst hkj'
    unfold nextValidAt
    rw [List.drop_eq_getElem_cons (by omega), ← List.getD_eq_getElem _ none (by omega), hv]
    rfl
  | succ d ih =>
    intro k j v hd hkj hj hnone hv
    have hk : k < ys.length := by omega
    unfold nextValidAt
    rw [List.drop_eq_getElem_cons (by omega), ← List.getD_eq_getElem _ none (by omega)]
    rw [hnone k (le_refl _) (by omega)]
    show (List.filterMap id (ys.drop (k + 1))).head? = some v
    have := ih (k + 1) j v (by omega) (by omega) hj
      (fun m hm1 hm2 => hnone m (by omega) hm2) hv
    exact this

/-- `prevValidAt` finds the last valid entry when everything after it in
the scanned range is missing. -/
lemma prevValidAt_eq (ys : List (Option ℚ)) :
    ∀ (d k i : ℕ) (v : ℚ), k - i = d → i ≤ k → k < ys.length →
      (∀ m, i < m → m ≤ k → ys.getD m none = none) →
      ys.getD i none = some v → prevValidAt ys k = some v := by
  intro d
  induction d with
  | zero =>
    intro k i v hd hik hk hnone hv
    have : i = k := by omega
    subst this
    unfold prevValidAt
    rw [List.take_succ]
    rw [List.getElem?_eq_getElem (by omega), ← List.getD_eq_getElem _ none (by omega), hv]
    rw [List.filterMap_append]
    simp
  | succ d ih =>
    intro k i v hd hik hk hnone hv
    unfold prevValidAt
    rw [List.take_succ]
    rw [List.getElem?_eq_getElem (by omega), ← List.getD_eq_getElem _ none (by omega)]
    rw [hnone k (by omega) (le_refl _)]
    rw [List.filterMap_append]
    simp only [Option.toList, List.filterMap_nil, List.append_nil]
    have hk1 : k - 1 < ys.length := by omega
    have := ih (k - 1) i v (by omega) (by omega) hk1
      (fun m hm1 hm2 => hnone m hm1 (by omega)) hv
    unfold prevValidAt at this
    have hkk : k - 1 + 1 = k := by omega
    rw [hkk] at this
    simpa using this

lemma prevValidIdx_none_of (xs : List (Option ℚ)) (m : ℕ)
    (h : ∀ i, i < m → xs.getD i none = none) : prevValidIdx xs m = none := by
  induction m with
  | zero => rfl
  | succ m ih =>
    rw [prevValidIdx, h m (by omega)]
    exact ih (fun i hi => h i (by omega))

/-- Value-level characterisation of the whole
`interpolate(linear) → bfill → ffill` chain at every position `k`:
a valid entry is preserved; a missing entry between two valid neighbours
gets the positional linear interpolation; a missing entry with only a
valid entry behind it gets that last valid value (forward fill); a missing
entry with only a valid entry ahead of it gets that first valid value
(backward fill); a column with no valid entry stays missing. -/
theorem fillColumn_getD (xs : List (Option ℚ)) (k : ℕ) (hk : k < xs.length) :
    (fillColumn xs).getD k none =
      (match xs.getD k none with
       | some v => some v
       | none =>
         match prevValidIdx xs k, nextValidIdx xs k with
         | some (i, vi), some (j, vj) =>
             some (vi + (vj - vi) * ((k : ℚ) - (i : ℚ)) / ((j : ℚ) - (i : ℚ)))
         | some (i, vi), none => some vi
         | none, some (_, vj) => some vj
         | none, none => none) := by
  have hlen1 : k < (interpolateLinear xs).length := by
    rw [interpolateLinear_length]; exact hk
  have hlen2 : k < (bfill (interpolateLinear xs)).length := by
    rw [bfill_length]; exact hlen1
  show (ffill (bfill (interpolateLinear xs))).getD k none = _
  cases hx : xs.getD k none with
  | some v =>
    have h1 : (interpolateLinear xs).getD k none = some v := by
      rw [interpolateLinear_getD _ _ hk, interpAt_of_some _ _ _ hx]
    have h2 : (bfill (interpolateLinear xs)).getD k none = some v := by
      rw [bfill_getD _ _ hlen1, h1]
    rw [ffill_getD _ _ hlen2, h2]
  | none =>
    cases hp : prevValidIdx xs k with
    | some p =>
      obtain ⟨i, vi⟩ := p
      cases hn : nextValidIdx xs k with
      | some q =>
        obtain ⟨j, vj⟩ := q
        have h1 : (interpolateLinear xs).getD k none =
            some (vi + (vj - vi) * ((k : ℚ) - (i : ℚ)) / ((j : ℚ) - (i : ℚ))) := by
          rw [interpolateLinear_getD _ _ hk]
          unfold interpAt
          rw [hx, hp, hn]
        have h2 : (bfill (interpolateLinear xs)).getD k none =
            some (vi + (vj - vi) * ((k : ℚ) - (i : ℚ)) / ((j : ℚ) - (i : ℚ))) := by
          rw [bfill_getD _ _ hlen1, h1]
        rw [ffill_getD _ _ hlen2, h2]
      | none =>
        have h1 : (interpolateLinear xs).getD k none = some vi := by
          rw [interpolateLinear_getD _ _ hk]
          unfold interpAt
          rw [hx, hp, hn]
        have h2 : (bfill (interpolateLinear xs)).getD k none = some vi := by
          rw [bfill_getD _ _ hlen1, h1]
        rw [ffill_getD _ _ hlen2, h2]
    | none =>
      have h1 : (interpolateLinear xs).getD k none = none := by
        rw [interpolateLinear_getD _ _ hk]
        unfold interpAt
        rw [hx, hp]
      cases hn : nextValidIdx xs k with
      | some q =>
        obtain ⟨j, vj⟩ := q
        obtain ⟨hkj, hj, hmid⟩ := nextValidIdx_some xs k j vj hn
        have hjlen : j < xs.length := getD_some_lt_length _ _ _ hj
        have hinterp_none : ∀ m, k ≤ m → m < j →
            (interpolateLinear xs).getD m none = none := by
          intro m hm1 hm2
          rw [interpolateLinear_getD _ _ (by omega)]
          unfold interpAt
          have hxm : xs.getD m none = none := by
            rcases Nat.eq_or_lt_of_le hm1 with heq | hlt
            · rw [← heq]; exact hx
            · exact hmid m hlt hm2
          rw [hxm]
          have hpm : prevValidIdx xs m = none := by
            apply prevValidIdx_none_of
            intro i hi
            by_cases hik : i < k
            · exact prevValidIdx_none xs k hp i hik
            · rcases Nat.eq_or_lt_of_le (Nat.le_of_not_lt hik) with heq | hlt
              · rw [← heq]; exact hx
              · exact hmid i hlt (by omega)
          rw [hpm]
        have hinterp_j : (interpolateLinear xs).getD j none = some vj := by
          rw [interpolateLinear_getD _ _ hjlen, interpAt_of_some _ _ _ hj]
        have h2 : (bfill (interpolateLinear xs)).getD k none = some vj := by
          rw [bfill_getD _ _ hlen1, h1]
          exact nextValidAt_eq _ (j - k) k j vj rfl (by omega)
            (by rw [interpolateLinear_length]; exact hjlen) hinterp_none hinterp_j
        rw [ffill_getD _ _ hlen2, h2]
      | none =>
        have hall : ∀ m, xs.getD m none = none := by
          intro m
          rcases lt_trichotomy m k with hmk | heq | hkm
          · exact prevValidIdx_none xs k hp m hmk
          · rw [heq]; exact hx
          · exact nextValidIdx_none xs k hn m hkm
        have hIA : ∀ m, interpAt xs m = none := by
          intro m
          unfold interpAt
          rw [hall m, prevValidIdx_none_of xs m (fun i _ => hall i)]
        have hImem : ∀ y ∈ interpolateLinear xs, y = none := by
          intro y hy
          obtain ⟨m, _, rfl⟩ := List.mem_map.mp hy
          exact hIA m
        have hNVA : ∀ m, nextValidAt (interpolateLinear xs) m = none := by
          intro m
          unfold nextValidAt
          have hnil : List.filterMap id ((interpolateLinear xs).drop m) = [] :=
            List.filterMap_eq_nil_iff.mpr
              (fun a ha => by rw [hImem a (List.mem_of_mem_drop ha)]; rfl)
          rw [hnil]
          rfl
        have hBmem : ∀ y ∈ bfill (interpolateLinear xs), y = none := by
          intro y hy
          obtain ⟨m, hm, rfl⟩ := List.mem_map.mp hy
          have hmlt : m < (interpolateLinear xs).length := List.mem_range.mp hm
          have hget : (interpolateLinear xs).getD m none = none := by
            rw [interpolateLinear_getD _ _ (by rwa [interpolateLinear_length] at hmlt)]
            exact hIA m
          simp only [hget]
          exact hNVA m
        have h2 : (bfill (interpolateLinear xs)).getD k none = none := by
          rw [bfill_getD _ _ hlen1, h1]
          exact hNVA k
        rw [ffill_getD _ _ hlen2, h2]
        have hPVA : prevValidAt (bfill (interpolateLinear xs)) k = none := by
          unfold prevValidAt
          have hnil : List.filterMap id ((bfill (interpolateLinear xs)).take (k + 1)) = [] :=
            List.filterMap_eq_nil_iff.mpr
              (fun a ha => by rw [hBmem a (List.mem_of_mem_take ha)]; rfl)
          rw [hnil]
          rfl
        exact hPVA

lemma list_ext_len_getD {α : Type} {l l' : List (Option α)}
    (hlen : l.length = l'.length)
    (h : ∀ k, k < l.length → l.getD k none = l'.getD k none) : l = l' := by
  apply List.ext_getElem hlen
  intro i h1 h2
  have := h i h1
  rwa [List.getD_eq_getElem _ _ h1, List.getD_eq_getElem _ _ h2] at this

lemma fillColumn_getD_some (xs : List (Option ℚ)) (k : ℕ) (v : ℚ)
    (h : xs.getD k none = some v) : (fillColumn xs).getD k none = some v := by
  rw [fillColumn_getD _ _ (getD_some_lt_length _ _ _ h), h]

/-- A column with no missing entry is left unchanged by the gap filling. -/
lemma fillColumn_all_some (xs : List (Option ℚ)) (h : ∀ x ∈ xs, x.isSome) :
    fillColumn xs = xs := by
  apply list_ext_len_getD (fillColumn_length xs)
  intro k hk
  rw [fillColumn_length] at hk
  have hx : ∃ v, xs.getD k none = some v := by
    rw [List.getD_eq_getElem _ _ hk]
    exact Option.isSome_iff_exists.mp (h _ (List.getElem_mem hk))
  obtain ⟨v, hv⟩ := hx
  rw [fillColumn_getD_some _ _ _ hv, hv]

lemma findValidFrom_none_of (xs : List (Option ℚ))
    (h : ∀ m, xs.getD m none = none) :
    ∀ (fuel j : ℕ), findValidFrom xs j fuel = none := by
  intro fuel
  induction fuel with
  | zero => intro j; rfl
  | succ fuel ih =>
    intro j
    rw [findValidFrom, h j]
    exact ih (j + 1)

/-- A column with no valid entry at all is left unchanged (all missing). -/
lemma fillColumn_all_none (xs : List (Option ℚ)) (h : ∀ x ∈ xs, x = none) :
    fillColumn xs = xs := by
  have hall : ∀ m, xs.getD m none = none := by
    intro m
    by_cases hm : m < xs.length
    · rw [List.getD_eq_getElem _ _ hm]
      exact h _ (List.getElem_mem hm)
    · exact List.getD_eq_default _ _ (by omega)
  apply list_ext_len_getD (fillColumn_length xs)
  intro k hk
  rw [fillColumn_length] at hk
  have hnext : nextValidIdx xs k = none := findValidFrom_none_of xs hall _ _
  rw [fillColumn_getD _ _ hk, hall k,
    prevValidIdx_none_of xs k (fun i _ => hall i), hnext]

/-- As soon as the column holds one valid entry, the gap filling leaves no
missing entry anywhere. -/
lemma fillColumn_isSome (xs : List (Option ℚ))
    (hex : ∃ m v, xs.getD m none = some v) :
    ∀ k, k < xs.length → ∃ v, (fillColumn xs).getD k none = some v := by
  intro k hk
  obtain ⟨m, w, hm⟩ := hex
  rw [fillColumn_getD _ _ hk]
  cases hx : xs.getD k none with
  | some v => exact ⟨v, rfl⟩
  | none =>
    cases hp : prevValidIdx xs k with
    | some p =>
      obtain ⟨i, vi⟩ := p
      cases hn : nextValidIdx xs k with
      | some q => obtain ⟨j, vj⟩ := q; exact ⟨_, rfl⟩
      | none => exact ⟨vi, rfl⟩
    | none =>
      cases hn : nextValidIdx xs k with
      | some q => obtain ⟨j, vj⟩ := q; exact ⟨vj, rfl⟩
      | none =>
        exfalso
        rcases lt_trichotomy m k with hmk | heq | hkm
        · rw [prevValidIdx_none xs k hp m hmk] at hm; cases hm
        · rw [heq] at hm; rw [hm] at hx; cases hx
        · rw [nextValidIdx_none xs k hn m hkm] at hm; cases hm

/-- The gap filling is idempotent. -/
lemma fillColumn_idem (xs : List (Option ℚ)) :
    fillColumn (fillColumn xs) = fillColumn xs := by
  by_cases hex : ∃ m v, xs.getD m none = some v
  · apply fillColumn_all_some
    intro y hy
    obtain ⟨i, hi, rfl⟩ := List.mem_iff_getElem.mp hy
    have hi' : i < xs.length := by rwa [fillColumn_length] at hi
    obtain ⟨v, hv⟩ := fillColumn_isSome xs hex i hi'
    rw [← List.getD_eq_getElem _ none hi, hv]
    rfl
  · push_neg at hex
    have hall : ∀ x ∈ xs, x = none := by
      intro x hx
      obtain ⟨i, hi, rfl⟩ := List.mem_iff_getElem.mp hx
      cases hxi : xs[i] with
      | none => rfl
      | some v =>
        exfalso
        exact hex i v (by rw [List.getD_eq_getElem _ _ hi, hxi])
    rw [fillColumn_all_none xs hall, fillColumn_all_none xs hall]

/-! #### Column view of `step_interpolate` -/

lemma step_interpolate_length (rows : List CleanRow) :
    (step_interpolate rows).length = rows.length := by
  simp [step_interpolate]

lemma step_interpolate_map_time (rows : List CleanRow) :
    (step_interpolate rows).map (fun r => r.time) = rows.map (fun r => r.time) := by
  apply List.ext_getElem (by simp [step_interpolate])
  intro i h1 h2
  simp only [step_interpolate, List.getElem_map, List.getElem_range]
  rw [List.getD_eq_getElem _ _ (by simpa using h2)]
  simp

lemma step_interpolate_map_heading (rows : List CleanRow) :
    (step_interpolate rows).map (fun r => r.heading) = rows.map (fun r => r.heading) := by
  apply List.ext_getElem (by simp [step_interpolate])
  intro i h1 h2
  simp only [step_interpolate, List.getElem_map, List.getElem_range]
  rw [List.getD_eq_getElem _ _ (by simpa using h2)]
  simp

lemma step_interpolate_map_icao24 (rows : List CleanRow) :
    (step_interpolate rows).map (fun r => r.icao24) = rows.map (fun r => r.icao24) := by
  apply List.ext_getElem (by simp [step_interpolate])
  intro i h1 h2
  simp only [step_interpolate, List.getElem_map, List.getElem_range]
  rw [List.getD_eq_getElem _ _ (by simpa using h2)]
  simp

lemma step_interpolate_map_latitude (rows : List CleanRow) :
    (step_interpolate rows).map (fun r => r.latitude) =
      fillColumn (rows.map (fun r => r.latitude)) := by
  apply List.ext_getElem (by simp [step_interpolate, fillColumn_length])
  intro i h1 h2
  simp only [step_interpolate, List.getElem_map, List.getElem_range]
  rw [List.getD_eq_getElem _ _ h2]

lemma step_interpolate_map_longitude (rows : List CleanRow) :
    (step_interpolate rows).map (fun r => r.longitude) =
      fillColumn (rows.map (fun r => r.longitude)) := by
  apply List.ext_getElem (by simp [step_interpolate, fillColumn_length])
  intro i h1 h2
  simp only [step_interpolate, List.getElem_map, List.getElem_range]
  rw [List.getD_eq_getElem _ _ h2]

lemma step_interpolate_map_baro_altitude (rows : List CleanRow) :
    (step_interpolate rows).map (fun r => r.baro_altitude) =
      fillColumn (rows.map (fun r => r.baro_altitude)) := by
  apply List.ext_getElem (by simp [step_interpolate, fillColumn_length])
  intro i h1 h2
  simp only [step_interpolate, List.getElem_map, List.getElem_range]
  rw [List.getD_eq_getElem _ _ h2]

lemma step_interpolate_map_velocity (rows : List CleanRow) :
    (step_interpolate rows).map (fun r => r.velocity) =
      fillColumn (rows.map (fun r => r.velocity)) := by
  apply List.ext_getElem (by simp [step_interpolate, fillColumn_length])
  intro i h1 h2
  simp only [step_interpolate, List.getElem_map, List.getElem_range]
  rw [List.getD_eq_getElem _ _ h2]

/-- C6, amended: the gap-filling `fillColumn` is applied to exactly the
four numeric columns (latitude, longitude, baro_altitude, velocity) and
behaves as specified — a valid value is preserved; an interior missing
value between the surrounding valid entries at positions `i < k < j` is
linearly interpolated (positionally, the rows being in time order); a
leading gap is backward-filled from the first valid value; a trailing gap
is forward-filled from the last valid value; at column level `[1, NaN, 3]`
becomes `[1, 2, 3]`. However, at pipeline level this can only ever act on
`velocity`: a row with a missing latitude, longitude or baro_altitude is
dropped by the essential-column filter before interpolation, so the
spec's latitude scenario `[1, NaN, 3]` at times `[0, 10, 20]` actually
yields the two-row column `[1, 3]` (see the counterexample); the
corresponding velocity scenario does yield `[1, 2, 3]`. -/
theorem C6_interpolation :
    (∀ (xs : List (Option ℚ)) (k : ℕ) (v : ℚ), xs.getD k none = some v →
      (fillColumn xs).getD k none = some v) ∧
    (∀ (xs : List (Option ℚ)) (k i j : ℕ) (vi vj : ℚ), k < xs.length →
      xs.getD k none = none → prevValidIdx xs k = some (i, vi) →
      nextValidIdx xs k = some (j, vj) →
      (fillColumn xs).getD k none =
        some (vi + (vj - vi) * ((k : ℚ) - (i : ℚ)) / ((j : ℚ) - (i : ℚ)))) ∧
    (∀ (xs : List (Option ℚ)) (k j : ℕ) (vj : ℚ), k < xs.length →
      xs.getD k none = none → prevValidIdx xs k = none →
      nextValidIdx xs k = some (j, vj) →
      (fillColumn xs).getD k none = some vj) ∧
    (∀ (xs : List (Option ℚ)) (k i : ℕ) (vi : ℚ), k < xs.length →
      xs.getD k none = none → prevValidIdx xs k = some (i, vi) →
      nextValidIdx xs k = none →
      (fillColumn xs).getD k none = some vi) ∧
    (∀ rows : List CleanRow,
      (step_interpolate rows).map (fun r => r.latitude) =
        fillColumn (rows.map (fun r => r.latitude)) ∧
      (step_interpolate rows).map (fun r => r.longitude) =
        fillColumn (rows.map (fun r => r.longitude)) ∧
      (step_interpolate rows).map (fun r => r.baro_altitude) =
        fillColumn (rows.map (fun r => r.baro_altitude)) ∧
      (step_interpolate rows).map (fun r => r.velocity) =
        fillColumn (rows.map (fun r => r.velocity))) ∧
    fillColumn [some 1, none, some 3] = [some 1, some 2, some 3] ∧
    (outOf exF6v).rows.map (fun r => r.velocity) = [some 1, some 2, some 3] := by
  refine ⟨?_, ?_, ?_, ?_, ?_, ?_, ?_⟩
  · intro xs k v h
    exact fillColumn_getD_some xs k v h
  · intro xs k i j vi vj hk hx hp hn
    rw [fillColumn_getD _ _ hk, hx, hp, hn]
  · intro xs k j vj hk hx hp hn
    rw [fillColumn_getD _ _ hk, hx, hp, hn]
  · intro xs k i vi hk hx hp hn
    rw [fillColumn_getD _ _ hk, hx, hp, hn]
  · intro rows
    exact ⟨step_interpolate_map_latitude rows, step_interpolate_map_longitude rows,
      step_interpolate_map_baro_altitude rows, step_interpolate_map_velocity rows⟩
  · decide
  · decide

/-- Witness for C6: the interior-gap clause evaluated at the scenario-D
column `[1, NaN, 3]`. -/
theorem C6_interpolation_witness :
    (1 : ℕ) < ([some 1, none, some 3] : List (Option ℚ)).length ∧
    ([some 1, none, some 3] : List (Option ℚ)).getD 1 none = none ∧
    prevValidIdx [some 1, none, some 3] 1 = some (0, 1) ∧
    nextValidIdx [some 1, none, some 3] 1 = some (2, 3) ∧
    (fillColumn [some 1, none, some 3]).getD 1 none =
      some (1 + (3 - 1) * (((1 : ℕ) : ℚ) - ((0 : ℕ) : ℚ)) /
        (((2 : ℕ) : ℚ) - ((0 : ℕ) : ℚ))) :=
  ⟨by decide, by decide, by decide, by decide,
   C6_interpolation.2.1 [some 1, none, some 3] 1 0 2 1 3
     (by decide) (by decide) (by decide) (by decide)⟩

/-- Counterexample to C6 as stated: the spec's scenario D latitude
sequence `[1, NaN, 3]` at times `[0, 10, 20]` is NOT interpolated to
`[1, 2, 3]` by the cleaner — latitude is an essential column, so the row
with the missing latitude is dropped by `dropna(subset=essential_cols)`
(source line 60) before the interpolation step runs, leaving the two-row
latitude column `[1, 3]`. -/
theorem C6_counterexample :
    preprocess_file exF6 = Except.ok (some (outOf exF6)) ∧
    (outOf exF6).rows.map (fun r => r.latitude) = [some 1, some 3] ∧
    (outOf exF6).rows.map (fun r => r.time) = [0, 20] ∧
    ([some 1, some 3] : List (Option ℚ)) ≠ [some 1, some 2, some 3] := by
  exact ⟨by decide, by decide, by decide, by decide⟩

/-! ### C2: invariants of the cleaned trajectory -/

lemma dropDupAux_sublist : ∀ (l seen : List CleanRow), List.Sublist (dropDupAux l seen) l := by
  intro l
  induction l with
  | nil => intro seen; exact List.Sublist.refl _
  | cons x xs ih =>
    intro seen
    rw [dropDupAux]
    by_cases hx : x ∈ seen
    · rw [if_pos hx]
      exact (ih seen).trans (List.sublist_cons_self x xs)
    · rw [if_neg hx]
      exact (ih (x :: seen)).cons₂ x

lemma dropDupAux_nodup : ∀ (l seen : List CleanRow),
    (dropDupAux l seen).Nodup ∧ ∀ x ∈ dropDupAux l seen, x ∉ seen := by
  intro l
  induction l with
  | nil => intro seen; exact ⟨List.nodup_nil, fun x hx => by cases hx⟩
  | cons x xs ih =>
    intro seen
    rw [dropDupAux]
    by_cases hx : x ∈ seen
    · rw [if_pos hx]; exact ih seen
    · rw [if_neg hx]
      obtain ⟨hnd, hmem⟩ := ih (x :: seen)
      refine ⟨List.nodup_cons.mpr ⟨?_, hnd⟩, ?_⟩
      · intro hxin
        exact hmem x hxin (by simp)
      · intro y hy
        rcases List.mem_cons.mp hy with rfl | hy'
        · exact hx
        · intro hyseen
          exact hmem y hy' (by simp [hyseen])

lemma dropDuplicates_sublist (l : List CleanRow) : List.Sublist (dropDuplicates l) l :=
  dropDupAux_sublist l []

lemma dropDuplicates_nodup (l : List CleanRow) : (dropDuplicates l).Nodup :=
  (dropDupAux_nodup l []).1

lemma dropDupAux_eq_self : ∀ (l seen : List CleanRow), l.Nodup →
    (∀ x ∈ l, x ∉ seen) → dropDupAux l seen = l := by
  intro l
  induction l with
  | nil => intro seen _ _; rfl
  | cons x xs ih =>
    intro seen hnd hmem
    rw [dropDupAux, if_neg (hmem x (by simp))]
    rw [ih (x :: seen) (List.nodup_cons.mp hnd).2]
    intro y hy
    intro hyin
    rcases List.mem_cons.mp hyin with rfl | hy'
    · exact (List.nodup_cons.mp hnd).1 hy
    · exact hmem y (by simp [hy]) hy'

lemma dropDuplicates_eq_self (l : List CleanRow) (h : l.Nodup) :
    dropDuplicates l = l :=
  dropDupAux_eq_self l [] h (by simp)

lemma cleanStage_sorted (f : RawFrame) : List.Sorted rowLE (cleanStage f) :=
  List.Pairwise.sublist (dropDuplicates_sublist _)
    (List.sorted_insertionSort rowLE _)

lemma cleanStage_nodup (f : RawFrame) : (cleanStage f).Nodup :=
  dropDuplicates_nodup _

/-- Every row of the clean stage has its essential numeric fields present
(they survived the `dropna` on the essential columns). -/
lemma cleanStage_essentials (f : RawFrame) :
    ∀ r ∈ cleanStage f,
      r.latitude.isSome ∧ r.longitude.isSome ∧ r.baro_altitude.isSome := by
  intro r hr
  have hr2 : r ∈ sortByTime (((rawRows0 f).filter essentialOk).filterMap toCleanRow) :=
    (dropDuplicates_sublist _).subset hr
  rw [sortByTime, List.mem_insertionSort] at hr2
  obtain ⟨raw, hraw, htcr⟩ := List.mem_filterMap.mp hr2
  have hok : essentialOk raw = true := List.of_mem_filter hraw
  rw [essentialOk] at hok
  simp only [Bool.and_eq_true] at hok
  obtain ⟨⟨⟨_, hlat⟩, hlon⟩, halt⟩ := hok
  rw [toCleanRow] at htcr
  cases ht : raw.time with
  | missing => rw [ht] at htcr; cases htcr
  | invalid => rw [ht] at htcr; cases htcr
  | val t =>
    rw [ht] at htcr
    have hh : (⟨t, raw.latitude, raw.longitude, raw.baro_altitude,
        raw.velocity, raw.heading, raw.icao24⟩ : CleanRow) = r := by
      simpa using htcr
    rw [← hh]
    exact ⟨hlat, hlon, halt⟩

/-- Interpolation preserves presence of the essential fields. -/
lemma step_interpolate_essentials (rows : List CleanRow)
    (h : ∀ r ∈ rows, r.latitude.isSome ∧ r.longitude.isSome ∧ r.baro_altitude.isSome) :
    ∀ r' ∈ step_interpolate rows,
      r'.latitude.isSome ∧ r'.longitude.isSome ∧ r'.baro_altitude.isSome := by
  have hlat : fillColumn (rows.map (fun r => r.latitude)) =
      rows.map (fun r => r.latitude) :=
    fillColumn_all_some _ (by
      intro x hx
      obtain ⟨r, hr, rfl⟩ := List.mem_map.mp hx
      exact (h r hr).1)
  have hlon : fillColumn (rows.map (fun r => r.longitude)) =
      rows.map (fun r => r.longitude) :=
    fillColumn_all_some _ (by
      intro x hx
      obtain ⟨r, hr, rfl⟩ := List.mem_map.mp hx
      exact (h r hr).2.1)
  have halt : fillColumn (rows.map (fun r => r.baro_altitude)) =
      rows.map (fun r => r.baro_altitude) :=
    fillColumn_all_some _ (by
      intro x hx
      obtain ⟨r, hr, rfl⟩ := List.mem_map.mp hx
      exact (h r hr).2.2)
  intro r' hr'
  refine ⟨?_, ?_, ?_⟩
  · have hm : r'.latitude ∈ (step_interpolate rows).map (fun r => r.latitude) :=
      List.mem_map_of_mem _ hr'
    rw [step_interpolate_map_latitude, hlat] at hm
    obtain ⟨r, hr, he⟩ := List.mem_map.mp hm
    rw [← he]
    exact (h r hr).1
  · have hm : r'.longitude ∈ (step_interpolate rows).map (fun r => r.longitude) :=
      List.mem_map_of_mem _ hr'
    rw [step_interpolate_map_longitude, hlon] at hm
    obtain ⟨r, hr, he⟩ := List.mem_map.mp hm
    rw [← he]
    exact (h r hr).2.1
  · have hm : r'.baro_altitude ∈ (step_interpolate rows).map (fun r => r.baro_altitude) :=
      List.mem_map_of_mem _ hr'
    rw [step_interpolate_map_baro_altitude, halt] at hm
    obtain ⟨r, hr, he⟩ := List.mem_map.mp hm
    rw [← he]
    exact (h r hr).2.2

lemma deriveFrame_rows (hh : Bool) (rows : List CleanRow) (c : Option String) :
    (deriveFrame hh rows c).rows = setIcaoAll c rows := rfl

/-- C2, amended: for every raw input the cleaner accepts, the resulting
trajectory has its samples ordered by non-decreasing (not necessarily
strictly increasing) time, none of the essential columns time, latitude,
longitude, baro_altitude has a missing value (`time` is total by
construction of `CleanRow`), and the rows are the image — under the
velocity/essential-gap interpolation and the constant `icao24`
overwrite — of a sorted, duplicate-free row list produced by the
deduplication step. (As stated the claim fails: two rows equal except for
`time`-unrelated fields survive deduplication, so time need not be
strictly increasing, and the later `icao24` overwrite can even make two
remaining rows exactly equal — see the counterexample.) -/
theorem C2_cleaned_invariants (f : RawFrame) (e : EnrichedFrame)
    (h : preprocess_file f = Except.ok (some e)) :
    List.Sorted (· ≤ ·) (e.rows.map (fun r => r.time)) ∧
    (∀ r ∈ e.rows, r.latitude.isSome ∧ r.longitude.isSome ∧ r.baro_altitude.isSome) ∧
    ∃ c rows, rows.Nodup ∧ List.Sorted rowLE rows ∧
      e.rows = setIcaoAll c (step_interpolate rows) := by
  obtain ⟨c, he⟩ := preprocess_file_ok_inv f e h
  have hrows : e.rows = setIcaoAll c (step_interpolate (cleanStage f)) := by
    rw [he, deriveFrame_rows]
  refine ⟨?_, ?_, c, cleanStage f, cleanStage_nodup f, cleanStage_sorted f, hrows⟩
  · rw [hrows, setIcaoAll_map_time, step_interpolate_map_time]
    exact List.pairwise_map.mpr (cleanStage_sorted f)
  · intro r hr
    rw [hrows] at hr
    obtain ⟨r4, hr4, rfl⟩ := List.mem_map.mp hr
    exact step_interpolate_essentials (cleanStage f) (cleanStage_essentials f) r4 hr4

/-- Witness for C2 at the concrete frame `exF4`. -/
theorem C2_cleaned_invariants_witness :
    preprocess_file exF4 = Except.ok (some (outOf exF4)) ∧
    (List.Sorted (· ≤ ·) ((outOf exF4).rows.map (fun r => r.time)) ∧
     (∀ r ∈ (outOf exF4).rows,
       r.latitude.isSome ∧ r.longitude.isSome ∧ r.baro_altitude.isSome) ∧
     ∃ c rows, rows.Nodup ∧ List.Sorted rowLE rows ∧
       (outOf exF4).rows = setIcaoAll c (step_interpolate rows)) :=
  ⟨by decide, C2_cleaned_invariants exF4 (outOf exF4) (by decide)⟩

/-- Counterexample to C2 as stated: `exF2` has two rows with equal time
that differ only in `icao24`; the cleaner accepts it, exact-duplicate
removal keeps both (they are not exact duplicates), and the later
constant-`icao24` overwrite makes them identical — so the output is
neither strictly increasing in time nor free of exact duplicate rows. -/
theorem C2_counterexample :
    preprocess_file exF2 = Except.ok (some (outOf exF2)) ∧
    (outOf exF2).rows.map (fun r => r.time) = [0, 0] ∧
    ¬ List.Sorted (· < ·) ((outOf exF2).rows.map (fun r => r.time)) ∧
    ¬ (outOf exF2).rows.Nodup := by
  exact ⟨by decide, by decide, by decide, by decide⟩

/-! ### C3: re-cleaning an already-cleaned trajectory -/

/-- View a cleaned sample as a raw CSV row again (this is what writing the
enriched frame out and reading it back yields for the columns the cleaner
looks at; the derived columns are recomputed identically on a second run
and do not influence any cleaning step, so they are dropped here). -/
def toRawRow (r : CleanRow) : RawRow :=
  ⟨Cell.val r.time, r.latitude, r.longitude, r.baro_altitude,
   r.velocity, r.heading, r.icao24⟩

/-- The enriched frame, re-presented as a raw input file of `b` bytes: all
essential columns present, `velocity` and `icao24` present (the cleaner
always creates them), `heading` present iff the original input had it. -/
def toRaw (e : EnrichedFrame) (b : ℕ) : RawFrame :=
  { byteSize := b, hasTime := true, hasLatitude := true, hasLongitude := true,
    hasBaroAltitude := true, hasVelocity := true, hasHeading := e.hasHeading,
    hasIcao24 := true, rows := e.rows.map toRawRow }

lemma setIcaoAll_map_latitude (c : Option String) (rows : List CleanRow) :
    (setIcaoAll c rows).map (fun r => r.latitude) = rows.map (fun r => r.latitude) := by
  simp [setIcaoAll, List.map_map]

lemma setIcaoAll_map_longitude (c : Option String) (rows : List CleanRow) :
    (setIcaoAll c rows).map (fun r => r.longitude) = rows.map (fun r => r.longitude) := by
  simp [setIcaoAll, List.map_map]

lemma setIcaoAll_map_baro_altitude (c : Option String) (rows : List CleanRow) :
    (setIcaoAll c rows).map (fun r => r.baro_altitude) =
      rows.map (fun r => r.baro_altitude) := by
  simp [setIcaoAll, List.map_map]

lemma setIcaoAll_map_velocity (c : Option String) (rows : List CleanRow) :
    (setIcaoAll c rows).map (fun r => r.velocity) = rows.map (fun r => r.velocity) := by
  simp [setIcaoAll, List.map_map]

lemma setIcaoAll_map_heading (c : Option String) (rows : List CleanRow) :
    (setIcaoAll c rows).map (fun r => r.heading) = rows.map (fun r => r.heading) := by
  simp [setIcaoAll, List.map_map]

lemma setIcaoAll_length (c : Option String) (rows : List CleanRow) :
    (setIcaoAll c rows).length = rows.length := by
  simp [setIcaoAll]

lemma setIcaoAll_idem (c : Option String) (rows : List CleanRow) :
    setIcaoAll c (setIcaoAll c rows) = setIcaoAll c rows := by
  simp [setIcaoAll, List.map_map]

lemma setIcaoAll_icao (c : Option String) (rows : List CleanRow) :
    ∀ r ∈ setIcaoAll c rows, r.icao24 = c := by
  intro r hr
  obtain ⟨r0, _, rfl⟩ := List.mem_map.mp hr
  rfl

/-- Rows of `rawRows0` have no heading value when the heading column is
absent from the file (column normalisation). -/
lemma rawRows0_heading (f : RawFrame) (hh : f.hasHeading = false) :
    ∀ raw ∈ rawRows0 f, raw.heading = none := by
  intro raw hraw
  unfold rawRows0 at hraw
  by_cases hv : f.hasVelocity = true
  · rw [if_pos hv] at hraw
    obtain ⟨r0, _, rfl⟩ := List.mem_map.mp hraw
    simp [normRow, hh]
  · rw [if_neg hv] at hraw
    rw [List.map_map] at hraw
    obtain ⟨r0, _, rfl⟩ := List.mem_map.mp hraw
    simp [normRow, hh]

lemma cleanStage_heading (f : RawFrame) (hh : f.hasHeading = false) :
    ∀ r ∈ cleanStage f, r.heading = none := by
  intro r hr
  have hr2 : r ∈ sortByTime (((rawRows0 f).filter essentialOk).filterMap toCleanRow) :=
    (dropDuplicates_sublist _).subset hr
  rw [sortByTime, List.mem_insertionSort] at hr2
  obtain ⟨raw, hraw, htcr⟩ := List.mem_filterMap.mp hr2
  have hrawmem : raw ∈ rawRows0 f := List.mem_filter.mp hraw |>.1
  have hhead := rawRows0_heading f hh raw hrawmem
  rw [toCleanRow] at htcr
  cases ht : raw.time with
  | missing => rw [ht] at htcr; cases htcr
  | invalid => rw [ht] at htcr; cases htcr
  | val t =>
    rw [ht] at htcr
    have hhh : (⟨t, raw.latitude, raw.longitude, raw.baro_altitude,
        raw.velocity, raw.heading, raw.icao24⟩ : CleanRow) = r := by
      simpa using htcr
    rw [← hhh]
    exact hhead

/-- Column normalisation is the identity on a row that already respects
the column-presence flags (velocity and icao24 present, heading values
absent when the heading column is). -/
lemma normRow_id (hasH : Bool) (r : RawRow)
    (hr : hasH = false → r.heading = none) :
    normRow true hasH true r = r := by
  by_cases hh : hasH = true
  · subst hh; rfl
  · have hf : hasH = false := by
      cases hasH
      · rfl
      · exact absurd rfl hh
    subst hf
    cases r with
    | mk t la lo al v hd ic =>
      have hhd : hd = none := hr rfl
      subst hhd
      rfl

lemma filterMap_toCleanRow_toRawRow (l : List CleanRow) :
    (l.map toRawRow).filterMap toCleanRow = l := by
  induction l with
  | nil => rfl
  | cons a l ih =>
    rw [List.map_cons, List.filterMap_cons]
    show (match toCleanRow (toRawRow a) with
          | none => (l.map toRawRow).filterMap toCleanRow
          | some b => b :: (l.map toRawRow).filterMap toCleanRow) = a :: l
    rw [show toCleanRow (toRawRow a) = some a from rfl]
    rw [ih]

/-- `step_interpolate` is the identity when each of the four gap-filled
columns is already a fixed point of `fillColumn`. -/
lemma step_interpolate_eq_self (rows : List CleanRow)
    (hlat : fillColumn (rows.map (fun r => r.latitude)) = rows.map (fun r => r.latitude))
    (hlon : fillColumn (rows.map (fun r => r.longitude)) = rows.map (fun r => r.longitude))
    (halt : fillColumn (rows.map (fun r => r.baro_altitude)) =
      rows.map (fun r => r.baro_altitude))
    (hvel : fillColumn (rows.map (fun r => r.velocity)) = rows.map (fun r => r.velocity)) :
    step_interpolate rows = rows := by
  apply List.ext_getElem (by simp [step_interpolate])
  intro i h1 h2
  simp only [step_interpolate, List.getElem_map, List.getElem_range]
  rw [hlat, hlon, halt, hvel]
  have hb : i < rows.length := h2
  have ht : (rows.map (fun r => r.time)).getD i 0 = rows[i].time := by
    rw [List.getD_eq_getElem _ _ (by simpa using hb)]; simp
  have hla : (rows.map (fun r => r.latitude)).getD i none = rows[i].latitude := by
    rw [List.getD_eq_getElem _ _ (by simpa using hb)]; simp
  have hlo : (rows.map (fun r => r.longitude)).getD i none = rows[i].longitude := by
    rw [List.getD_eq_getElem _ _ (by simpa using hb)]; simp
  have hal : (rows.map (fun r => r.baro_altitude)).getD i none = rows[i].baro_altitude := by
    rw [List.getD_eq_getElem _ _ (by simpa using hb)]; simp
  have hve : (rows.map (fun r => r.velocity)).getD i none = rows[i].velocity := by
    rw [List.getD_eq_getElem _ _ (by simpa using hb)]; simp
  have hhe : (rows.map (fun r => r.heading)).getD i none = rows[i].heading := by
    rw [List.getD_eq_getElem _ _ (by simpa using hb)]; simp
  have hic : (rows.map (fun r => r.icao24)).getD i none = rows[i].icao24 := by
    rw [List.getD_eq_getElem _ _ (by simpa using hb)]; simp
  rw [ht, hla, hlo, hal, hve, hhe, hic]

/-- The derived frame depends only on the (icao-overwritten) rows through
their time, latitude, longitude, baro_altitude, velocity and heading
columns, their length, and the `icao24`-overwritten rows themselves. -/
lemma deriveFrame_congr (hh : Bool) (c : Option String) (rows rows' : List CleanRow)
    (ht : rows.map (fun r => r.time) = rows'.map (fun r => r.time))
    (hla : rows.map (fun r => r.latitude) = rows'.map (fun r => r.latitude))
    (hlo : rows.map (fun r => r.longitude) = rows'.map (fun r => r.longitude))
    (hal : rows.map (fun r => r.baro_altitude) = rows'.map (fun r => r.baro_altitude))
    (hve : rows.map (fun r => r.velocity) = rows'.map (fun r => r.velocity))
    (hhe : rows.map (fun r => r.heading) = rows'.map (fun r => r.heading))
    (hlen : rows.length = rows'.length)
    (hrws : setIcaoAll c rows = setIcaoAll c rows') :
    deriveFrame hh rows c = deriveFrame hh rows' c := by
  have hlaF : rows.map (fun r => toFVal r.latitude) =
      rows'.map (fun r => toFVal r.latitude) := by
    have := congrArg (List.map toFVal) hla
    simpa [List.map_map, Function.comp] using this
  have hloF : rows.map (fun r => toFVal r.longitude) =
      rows'.map (fun r => toFVal r.longitude) := by
    have := congrArg (List.map toFVal) hlo
    simpa [List.map_map, Function.comp] using this
  have halF : rows.map (fun r => toFVal r.baro_altitude) =
      rows'.map (fun r => toFVal r.baro_altitude) := by
    have := congrArg (List.map toFVal) hal
    simpa [List.map_map, Function.comp] using this
  have hveF : rows.map (fun r => toFVal r.velocity) =
      rows'.map (fun r => toFVal r.velocity) := by
    have := congrArg (List.map toFVal) hve
    simpa [List.map_map, Function.comp] using this
  have hheF : rows.map (fun r => toFVal r.heading) =
      rows'.map (fun r => toFVal r.heading) := by
    have := congrArg (List.map toFVal) hhe
    simpa [List.map_map, Function.comp] using this
  unfold deriveFrame
  rw [ht, hlaF, hloF, halF, hveF, hheF, hlen, hrws]

/-- C3, amended: an already-cleaned trajectory with at least one sample
and pairwise-distinct rows is a fixed point of the cleaner. The two
exceptions force the amendment: a zero-row cleaned output is re-cleaned to
SKIP "empty after filtering" (see the counterexample), and an output in
which the velocity gap-fill or the constant `icao24` overwrite produced
exactly duplicate rows loses those duplicates on a second run. -/
theorem C3_recleaning_fixed_point (f : RawFrame) (e : EnrichedFrame) (b : ℕ)
    (hb : 10 ≤ b)
    (h : preprocess_file f = Except.ok (some e))
    (hne : e.rows ≠ [])
    (hnd : e.rows.Nodup) :
    preprocess_file (toRaw e b) = Except.ok (some e) := by
  obtain ⟨c, he⟩ := preprocess_file_ok_inv f e h
  have hrowsE : e.rows = setIcaoAll c (step_interpolate (cleanStage f)) := by
    rw [he, deriveFrame_rows]
  have hhh : e.hasHeading = f.hasHeading := by rw [he]; rfl
  have hsorted : List.Sorted rowLE e.rows := by
    have h1 : List.Sorted (· ≤ ·) (e.rows.map (fun r => r.time)) := by
      rw [hrowsE, setIcaoAll_map_time, step_interpolate_map_time]
      exact List.pairwise_map.mpr (cleanStage_sorted f)
    have h2 : List.Pairwise (fun a b : CleanRow => a.time ≤ b.time) e.rows :=
      List.pairwise_map.mp h1
    exact h2
  have hess : ∀ r ∈ e.rows,
      r.latitude.isSome ∧ r.longitude.isSome ∧ r.baro_altitude.isSome := by
    intro r hr
    rw [hrowsE] at hr
    obtain ⟨r4, hr4, rfl⟩ := List.mem_map.mp hr
    exact step_interpolate_essentials (cleanStage f) (cleanStage_essentials f) r4 hr4
  have hhead : e.hasHeading = false → ∀ r ∈ e.rows, r.heading = none := by
    intro hhf r hr
    rw [hhh] at hhf
    have hm : r.heading ∈ e.rows.map (fun r => r.heading) := List.mem_map_of_mem _ hr
    rw [hrowsE, setIcaoAll_map_heading, step_interpolate_map_heading] at hm
    obtain ⟨r3, hr3, heq⟩ := List.mem_map.mp hm
    rw [← heq]
    exact cleanStage_heading f hhf r3 hr3
  have hicao : ∀ r ∈ e.rows, r.icao24 = c := by
    intro r hr
    rw [hrowsE] at hr
    exact setIcaoAll_icao c _ r hr
  have hlatfix : fillColumn (e.rows.map (fun r => r.latitude)) =
      e.rows.map (fun r => r.latitude) := by
    rw [hrowsE, setIcaoAll_map_latitude, step_interpolate_map_latitude]
    exact fillColumn_idem _
  have hlonfix : fillColumn (e.rows.map (fun r => r.longitude)) =
      e.rows.map (fun r => r.longitude) := by
    rw [hrowsE, setIcaoAll_map_longitude, step_interpolate_map_longitude]
    exact fillColumn_idem _
  have haltfix : fillColumn (e.rows.map (fun r => r.baro_altitude)) =
      e.rows.map (fun r => r.baro_altitude) := by
    rw [hrowsE, setIcaoAll_map_baro_altitude, step_interpolate_map_baro_altitude]
    exact fillColumn_idem _
  have hvelfix : fillColumn (e.rows.map (fun r => r.velocity)) =
      e.rows.map (fun r => r.velocity) := by
    rw [hrowsE, setIcaoAll_map_velocity, step_interpolate_map_velocity]
    exact fillColumn_idem _
  have hraw0 : rawRows0 (toRaw e b) = e.rows.map toRawRow := by
    have h1 : rawRows0 (toRaw e b) =
        (e.rows.map toRawRow).map (normRow true e.hasHeading true) := by
      unfold rawRows0 toRaw
      rfl
    rw [h1]
    have h2 : ∀ raw ∈ e.rows.map toRawRow,
        normRow true e.hasHeading true raw = raw := by
      intro raw hraw
      obtain ⟨r, hr, rfl⟩ := List.mem_map.mp hraw
      apply normRow_id
      intro hhf
      show r.heading = none
      exact hhead hhf r hr
    calc (e.rows.map toRawRow).map (normRow true e.hasHeading true)
        = (e.rows.map toRawRow).map id := List.map_congr_left h2
      _ = e.rows.map toRawRow := List.map_id _
  have hfilter : (rawRows0 (toRaw e b)).filter essentialOk = e.rows.map toRawRow := by
    rw [hraw0]
    apply List.filter_eq_self.mpr
    intro raw hraw
    obtain ⟨r, hr, rfl⟩ := List.mem_map.mp hraw
    obtain ⟨h1, h2, h3⟩ := hess r hr
    show essentialOk (toRawRow r) = true
    unfold essentialOk toRawRow
    simp [h1, h2, h3]
  have hnotempty : ¬ ((rawRows0 (toRaw e b)).filter essentialOk).isEmpty = true := by
    rw [hfilter, List.isEmpty_iff]
    intro hnil
    exact hne (List.map_eq_nil_iff.mp hnil)
  have hclean : cleanStage (toRaw e b) = e.rows := by
    unfold cleanStage
    rw [hfilter, filterMap_toCleanRow_toRawRow]
    rw [show sortByTime e.rows = e.rows from List.Sorted.insertionSort_eq hsorted]
    exact dropDuplicates_eq_self e.rows hnd
  have hstep : step_interpolate e.rows = e.rows :=
    step_interpolate_eq_self e.rows hlatfix hlonfix haltfix hvelfix
  have hhead0 : ∃ r0, e.rows.head? = some r0 ∧ r0.icao24 = c := by
    cases hrw : e.rows with
    | nil => exact absurd hrw hne
    | cons a l => exact ⟨a, rfl, hicao a (by rw [hrw]; simp)⟩
  obtain ⟨r0, hh0, hic0⟩ := hhead0
  have hfinal : deriveFrame f.hasHeading e.rows c = e := by
    have hcongr : deriveFrame f.hasHeading e.rows c =
        deriveFrame f.hasHeading (step_interpolate (cleanStage f)) c := by
      apply deriveFrame_congr
      · rw [hrowsE, setIcaoAll_map_time]
      · rw [hrowsE, setIcaoAll_map_latitude]
      · rw [hrowsE, setIcaoAll_map_longitude]
      · rw [hrowsE, setIcaoAll_map_baro_altitude]
      · rw [hrowsE, setIcaoAll_map_velocity]
      · rw [hrowsE, setIcaoAll_map_heading]
      · rw [hrowsE, setIcaoAll_length]
      · rw [hrowsE, setIcaoAll_idem]
    rw [hcongr, ← he]
  unfold preprocess_file
  rw [if_neg (show ¬ (toRaw e b).byteSize < 10 from by
    show ¬ b < 10
    omega)]
  rw [if_neg (not_not_intro
    (show (toRaw e b).hasTime ∧ (toRaw e b).hasLatitude ∧
        (toRaw e b).hasLongitude ∧ (toRaw e b).hasBaroAltitude from
      ⟨rfl, rfl, rfl, rfl⟩))]
  rw [if_neg hnotempty]
  unfold enrich
  rw [hclean, hstep]
  rw [if_pos (show (toRaw e b).hasIcao24 = true from rfl)]
  rw [hh0]
  show Except.map some
    (Except.ok (deriveFrame (toRaw e b).hasHeading e.rows r0.icao24)) = _
  rw [hic0, show (toRaw e b).hasHeading = e.hasHeading from rfl, hhh, hfinal]
  rfl

/-- Witness for C3 at the concrete frame `exF4`: its nonempty,
duplicate-free cleaned output is re-cleaned to itself. -/
theorem C3_recleaning_fixed_point_witness :
    10 ≤ 100 ∧
    preprocess_file exF4 = Except.ok (some (outOf exF4)) ∧
    (outOf exF4).rows ≠ [] ∧
    (outOf exF4).rows.Nodup ∧
    preprocess_file (toRaw (outOf exF4) 100) = Except.ok (some (outOf exF4)) :=
  ⟨by decide, by decide, by decide, by decide,
   C3_recleaning_fixed_point exF4 (outOf exF4) 100
     (by decide) (by decide) (by decide) (by decide)⟩

/-- Counterexample to C3 as stated: the zero-row enriched table that the
cleaner returns for `exF10b` (all time values unparseable, no `icao24`
column) is an output of the cleaning pipeline, yet re-cleaning it yields
SKIP "empty after filtering" (`None`), not an identical result. -/
theorem C3_counterexample :
    preprocess_file exF10b = Except.ok (some (outOf exF10b)) ∧
    (outOf exF10b).rows = [] ∧
    preprocess_file (toRaw (outOf exF10b) 100) = Except.ok none := by
  exact ⟨by decide, by decide, by decide⟩

end Traj
